import Mathlib

/-!
# keyleds: the decay feedback effect and the Service orchestrator

A shallow embedding of `keyledsd/plugins/src/feedback.cxx` (class `FeedbackEffect`) and of
`keyledsd/src/keyledsd/Service.cxx` (class `Service`), with the properties their
specification states about them.

Conventions of the embedding:
* `milliseconds` values are mathematical integers (`Int`); the C++ `/` on them is the
  truncating division `Int.tdiv`; a division by zero has no result (`render` returns `none`);
* colour channels are 8-bit: a channel is a `Nat`, and the conversion
  `RGBAColor::channel_type(x)` is reduction modulo `2^8`;
* a `std::vector` is a `List`; a write at an index is `List.set`.
-/

namespace Keyleds

/-! ## Feedback effect: data model -/

/-- Modelled from the spec: `keyleds::RGBAColor` is declared outside the given sources. A
colour has the four channels red, green, blue and alpha, 8 bits each (the constants
`transparent` and `white` below span the range `0..255`); a channel is kept as a natural
number. -/
structure RGBAColor where
  red : Nat
  green : Nat
  blue : Nat
  alpha : Nat
deriving DecidableEq, Repr

/-- The constant `transparent` of feedback.cxx, line 25. -/
def transparent : RGBAColor := ⟨0, 0, 0, 0⟩

/-- The constant `white` of feedback.cxx, line 26. -/
def white : RGBAColor := ⟨255, 255, 255, 255⟩

/-- The conversion `RGBAColor::channel_type(x)` to an unsigned 8-bit channel: the value
modulo `2^8`. -/
def channel_type (x : Int) : Nat := (x % 256).toNat

/-- Modelled from the spec: `KeyDatabase::Key` is declared outside the given sources. An entry
of the key database has a stable zero-based render `index`; `addr` stands for the identity
(address) of the entry, so that comparing two references is comparing two values. -/
structure Key where
  addr : Nat
  index : Nat
deriving DecidableEq, Repr

/-- The private record `FeedbackEffect::KeyPress`. Modelled from the spec: the type
`milliseconds` of `age` is declared outside the given sources; a duration is a whole number
of milliseconds, kept as an integer without bound. -/
structure KeyPress where
  key : Key
  age : Int
deriving DecidableEq, Repr

/-- A render target: one colour per key index. -/
abbrev RenderTarget := List RGBAColor

/-- The members of `FeedbackEffect`; `m_sustain` and `m_decay` are `milliseconds`. -/
structure FeedbackEffect where
  m_color : RGBAColor
  m_sustain : Int
  m_decay : Int
  m_buffer : RenderTarget
  m_presses : List KeyPress
deriving DecidableEq, Repr

/-- The constructor: the configured values with their fallbacks (white, 750ms, 500ms), a
buffer of the device's size filled with `transparent`, and no tracked key press. -/
def FeedbackEffect.create (color : Option RGBAColor) (sustain decay : Option Int)
    (size : Nat) : FeedbackEffect :=
  { m_color := color.getD white
    m_sustain := sustain.getD 750
    m_decay := decay.getD 500
    m_buffer := List.replicate size transparent
    m_presses := [] }

/-! ## Feedback effect: operations -/

/-- The local `lifetime` of `render`: `m_sustain + m_decay`. -/
def lifetime (s : FeedbackEffect) : Int := s.m_sustain + s.m_decay

/-- Lines 53-54: `keyPress.age += elapsed; if (keyPress.age > lifetime) keyPress.age = lifetime`. -/
def renderKeyPress (s : FeedbackEffect) (elapsed : Int) (keyPress : KeyPress) : KeyPress :=
  let age := keyPress.age + elapsed
  { keyPress with age := if age > lifetime s then lifetime s else age }

/-- The value `m_color.alpha * std::min(lifetime - keyPress.age, m_decay) / m_decay` of line 60,
before its conversion to a channel. -/
def alphaValue (s : FeedbackEffect) (age : Int) : Int :=
  Int.tdiv ((s.m_color.alpha : Int) * min (lifetime s - age) s.m_decay) s.m_decay

/-- Lines 55-62: the colour stored for a key press whose age is already updated. -/
def renderColor (s : FeedbackEffect) (keyPress : KeyPress) : RGBAColor :=
  { red := s.m_color.red
    green := s.m_color.green
    blue := s.m_color.blue
    alpha := channel_type (alphaValue s keyPress.age) }

/-- Lines 52-63: the loop over `m_presses`; it returns the updated records and the buffer. -/
def renderLoop (s : FeedbackEffect) (elapsed : Int) :
    List KeyPress → RenderTarget → List KeyPress × RenderTarget
  | [], buffer => ([], buffer)
  | keyPress :: rest, buffer =>
    let aged := renderKeyPress s elapsed keyPress
    let out := renderLoop s elapsed rest (buffer.set aged.key.index (renderColor s aged))
    (aged :: out.1, out.2)

/-- The method `FeedbackEffect::render`. The function `blend` is declared outside the given
sources and is a parameter. With `m_decay = 0` and a tracked key press the division of
line 60 has no result. -/
def render (blend : RenderTarget → RenderTarget → RenderTarget) (s : FeedbackEffect)
    (elapsed : Int) (target : RenderTarget) : Option (FeedbackEffect × RenderTarget) :=
  if s.m_decay = 0 ∧ s.m_presses ≠ [] then none
  else
    let out := renderLoop s elapsed s.m_presses s.m_buffer
    let presses := out.1.filter (fun keyPress => ¬ (keyPress.age ≥ lifetime s))
    some ({ s with m_buffer := out.2, m_presses := presses }, blend target out.2)

/-- Lines 74-79: the search loop of `handleKeyEvent`; `none` when the loop ends without a
match, otherwise the records with the age of the first match set to zero. -/
def resetAge (key : Key) : List KeyPress → Option (List KeyPress)
  | [] => none
  | keyPress :: rest =>
    if keyPress.key = key then some ({ keyPress with age := 0 } :: rest)
    else (resetAge key rest).map (fun tail => keyPress :: tail)

/-- The method `FeedbackEffect::handleKeyEvent`; its second parameter is unnamed and unused. -/
def handleKeyEvent (s : FeedbackEffect) (key : Key) (_pressed : Bool) : FeedbackEffect :=
  match resetAge key s.m_presses with
  | some presses => { s with m_presses := presses }
  | none => { s with m_presses := s.m_presses ++ [{ key := key, age := 0 }] }

/-- A run of frames: `render` called once per element of `frames`, in order, with no key
event in between, every frame blending onto the target the previous frame left. -/
def renderFrames (blend : RenderTarget → RenderTarget → RenderTarget) :
    List Int → FeedbackEffect → RenderTarget → Option (FeedbackEffect × RenderTarget)
  | [], s, target => some (s, target)
  | elapsed :: frames, s, target =>
    match render blend s elapsed target with
    | none => none
    | some out => renderFrames blend frames out.1 out.2

/-! ## Service: data model -/

/-- Modelled from the spec: `Context` is declared outside the given sources. It is a mapping
from string key to string value, kept as the list of its entries. -/
structure Context where
  values : List (String × String)
deriving DecidableEq, Repr

/-- The empty context `{}` that `setConfiguration` passes to `setContext`. -/
def Context.empty : Context := ⟨[]⟩

/-- Overwrite the value of `key`, or add the entry when the key is not present. -/
def Context.assign (key value : String) : List (String × String) → List (String × String)
  | [] => [(key, value)]
  | entry :: rest =>
    if entry.1 = key then (key, value) :: rest else entry :: Context.assign key value rest

/-- Modelled from the spec: `Context::merge` is defined outside the given sources. Merging an
update into a context overwrites only the keys present in the update and preserves all
others; there is no deletion. -/
def Context.merge (ctx update : Context) : Context :=
  ⟨update.values.foldl (fun acc entry => Context.assign entry.1 entry.2 acc) ctx.values⟩

/-- Modelled from the spec: `Configuration` is declared outside the given sources. It is
identified by an originating filesystem path (empty when not file-backed) and holds an
ordered list of device-matching rules, each with its ordered list of effect names. -/
structure Configuration where
  path : String
  rules : List (String × List String)
deriving DecidableEq, Repr

/-- The calls that Service.cxx makes on a `DeviceManager`. -/
inductive DMCall where
  | create (devNode : String) (configuration : Option Configuration)
  | setConfiguration (configuration : Configuration)
  | setContext (context : Context)
  | setPaused (paused : Bool)
  | handleGenericEvent (context : Context)
  | handleKeyEvent (key : Int) (press : Bool)
deriving DecidableEq, Repr

/-- Modelled from the spec: `DeviceManager` is declared outside the given sources. A manager
is known by the values the Service reads from it (`sysPath`, `serial`, `eventDevices`) and
by the calls it has received from the Service, oldest first. -/
structure DeviceManager where
  sysPath : String
  serial : String
  eventDevices : List String
  received : List DMCall
deriving DecidableEq, Repr

/-- Severity of a log line (the logging macros used in Service.cxx). -/
inductive Severity where
  | critical
  | error
  | info
  | verbose
  | debug
deriving DecidableEq, Repr

/-- What the Service does to its collaborators, in the order it does it: a log line, the
release of the file-watch subscription held so far (`previous`), a new subscription on
`path` for `CloseWrite`, a call on the manager at `position` of `m_devices`, the signals
`deviceManagerAdded` and `deviceManagerRemoved`, and `QCoreApplication::quit`. -/
inductive Event where
  | logged (severity : Severity)
  | watchReleased (previous : Option String)
  | watchSubscribed (path : String)
  | deviceCall (position : Nat) (call : DMCall)
  | deviceManagerAdded (sysPath : String)
  | deviceManagerRemoved (sysPath : String)
  | quit
deriving DecidableEq, Repr

/-- The members of `Service` that its device, context and configuration handling uses.
`m_fileWatcherSub` is the path watched for `CloseWrite`, when a subscription is held;
`m_trace` records the events so far, oldest first. The display managers are left out. -/
structure Service where
  m_configuration : Option Configuration
  m_autoQuit : Bool
  m_active : Bool
  m_context : Context
  m_devices : List DeviceManager
  m_fileWatcherSub : Option String
  m_trace : List Event
deriving DecidableEq, Repr

/-! ## Service: operations -/

/-- A manager after one more call from the Service. -/
def DeviceManager.call (d : DeviceManager) (c : DMCall) : DeviceManager :=
  { d with received := d.received ++ [c] }

/-- The loop `for (auto & device : m_devices) { device->...; }`: the same call on every
manager, in list order. -/
def Service.forEachDevice (s : Service) (c : DMCall) : Service :=
  { s with
    m_devices := s.m_devices.map (fun device => device.call c)
    m_trace := s.m_trace ++ (List.range s.m_devices.length).map (fun i => Event.deviceCall i c) }

/-- The method `Service::setContext`. -/
def Service.setContext (s : Service) (context : Context) : Service :=
  let merged : Service :=
    { s with
      m_trace := s.m_trace ++ [Event.logged Severity.verbose]
      m_context := s.m_context.merge context }
  merged.forEachDevice (DMCall.setContext merged.m_context)

/-- The method `Service::handleGenericEvent`. -/
def Service.handleGenericEvent (s : Service) (context : Context) : Service :=
  s.forEachDevice (DMCall.handleGenericEvent context)

/-- The loop of `Service::handleKeyEvent`, from the manager at `position` on: the first
manager whose `eventDevices` holds `devNode` gets the event, and the loop stops there. -/
def handleKeyEventLoop (devNode : String) (key : Int) (press : Bool) :
    Nat → List DeviceManager → List DeviceManager × List Event
  | _, [] => ([], [])
  | position, device :: rest =>
    if devNode ∈ device.eventDevices then
      (device.call (DMCall.handleKeyEvent key press) :: rest,
        [Event.deviceCall position (DMCall.handleKeyEvent key press)])
    else
      let out := handleKeyEventLoop devNode key press (position + 1) rest
      (device :: out.1, out.2)

/-- The method `Service::handleKeyEvent`. -/
def Service.handleKeyEvent (s : Service) (devNode : String) (key : Int) (press : Bool) :
    Service :=
  let out := handleKeyEventLoop devNode key press 0 s.m_devices
  { s with m_devices := out.1, m_trace := s.m_trace ++ out.2 }

/-- The method `Service::setConfiguration`, for a non-null `config` (line 82 dereferences it). -/
def Service.setConfiguration (s : Service) (config : Configuration) : Service :=
  let released : Service :=
    { s with
      m_fileWatcherSub := none
      m_trace := s.m_trace ++ [Event.watchReleased s.m_fileWatcherSub] }
  let installed : Service := { released with m_configuration := some config }
  let propagated := installed.forEachDevice (DMCall.setConfiguration config)
  let reloaded := propagated.setContext Context.empty
  if config.path ≠ "" then
    { reloaded with
      m_fileWatcherSub := some config.path
      m_trace := reloaded.m_trace ++ [Event.watchSubscribed config.path] }
  else reloaded

/-! ## Blending onto the target -/

/-- One channel of the alpha-over compositing of the spec,
`out = src * srcAlpha + dst * (1 - srcAlpha)`, with the alpha on the scale `0..255`. -/
def blendChannel (alpha src dst : Nat) : Nat := (src * alpha + dst * (255 - alpha)) / 255

/-- Alpha-over compositing of the colour `src` onto the colour `dst`, channel by channel. -/
def blendColor (dst src : RGBAColor) : RGBAColor :=
  { red := blendChannel src.alpha src.red dst.red
    green := blendChannel src.alpha src.green dst.green
    blue := blendChannel src.alpha src.blue dst.blue
    alpha := blendChannel src.alpha src.alpha dst.alpha }

/-- Modelled from the spec: the function `blend(target, buffer)` that `render` calls is
defined outside the given sources. It blends the buffer onto the target with standard
alpha-over compositing, `out = src * srcAlpha + dst * (1 - srcAlpha)` per channel, applied
independently per key index. -/
def blend (target buffer : RenderTarget) : RenderTarget :=
  List.zipWith blendColor target buffer

/-! ## Feedback effect: reachable states -/

/-- The states an effect can be in: the constructed state, and every state that a call
of `handleKeyEvent` or a call of `render` that returns leads to. The frame durations are
those that `allowed` admits. -/
inductive Reachable (blend : RenderTarget → RenderTarget → RenderTarget)
    (allowed : Int → Prop) : FeedbackEffect → Prop where
  | create (color : Option RGBAColor) (sustain decay : Option Int) (size : Nat) :
    Reachable blend allowed (FeedbackEffect.create color sustain decay size)
  | handleKeyEvent {s : FeedbackEffect} (key : Key) (pressed : Bool) :
    Reachable blend allowed s → Reachable blend allowed (handleKeyEvent s key pressed)
  | render {s s' : FeedbackEffect} (elapsed : Int) (target target' : RenderTarget) :
    Reachable blend allowed s → allowed elapsed →
    render blend s elapsed target = some (s', target') → Reachable blend allowed s'

/-! ## Service: device and file notifications -/

/-- Modelled from the spec: `device::Description` is declared outside the given sources.
A description carries the transport path `devNode` and the stable identity `sysPath`. -/
structure Description where
  devNode : String
  sysPath : String
deriving DecidableEq, Repr

/-- Modelled from the spec: the error codes of `keyleds.h` are declared outside the given
sources. Two of them stand for "not the right kind of device"; all others are told apart
by a number. -/
inductive ErrorCode where
  | KEYLEDS_ERROR_HIDNOPP
  | KEYLEDS_ERROR_HIDVERSION
  | other (code : Nat)
deriving DecidableEq, Repr

/-- What a successfully opened device gives the new manager: the serial number the device
reports and the input-event device nodes associated with it. -/
structure Opened where
  serial : String
  eventDevices : List String
deriving DecidableEq, Repr

/-- Modelled from the spec: `FileWatcher::event` is declared outside the given sources. An
event is a set of flags, of which the Service looks at `Ignored`; `CloseWrite` is the
class it subscribes to. -/
structure FileWatcherEvent where
  closeWrite : Bool
  ignored : Bool
deriving DecidableEq, Repr

/-- The method `Service::onDeviceAdded`. The outcome of opening the device and building
its manager is `opened`: the opened device, or the code of the `Device::error` thrown. -/
def Service.onDeviceAdded (s : Service) (description : Description)
    (opened : Except ErrorCode Opened) : Service :=
  match opened with
  | Except.ok device =>
    let position := s.m_devices.length
    let manager : DeviceManager :=
      { sysPath := description.sysPath
        serial := device.serial
        eventDevices := device.eventDevices
        received :=
          [DMCall.create description.devNode s.m_configuration, DMCall.setContext s.m_context,
            DMCall.setPaused false] }
    { s with
      m_devices := s.m_devices ++ [manager]
      m_trace := s.m_trace ++
        [Event.logged Severity.verbose,
          Event.deviceCall position (DMCall.create description.devNode s.m_configuration),
          Event.deviceCall position (DMCall.setContext s.m_context),
          Event.deviceManagerAdded description.sysPath,
          Event.logged Severity.info,
          Event.deviceCall position (DMCall.setPaused false)] }
  | Except.error code =>
    if code ≠ ErrorCode.KEYLEDS_ERROR_HIDNOPP ∧ code ≠ ErrorCode.KEYLEDS_ERROR_HIDVERSION then
      { s with
        m_trace := s.m_trace ++ [Event.logged Severity.verbose, Event.logged Severity.error] }
    else
      { s with
        m_trace := s.m_trace ++ [Event.logged Severity.verbose, Event.logged Severity.verbose] }

/-- Lines 195-196, `std::iter_swap(it, m_devices.end() - 1); m_devices.pop_back();`, seen
from `it` on, `rest` being the elements after `it`: the last element takes the place of
`it`, the others keep theirs, and the last place is dropped. -/
def swapPop (rest : List DeviceManager) : List DeviceManager :=
  match rest.getLast? with
  | none => []
  | some last => last :: rest.dropLast

/-- Lines 189-196 of `onDeviceRemoved`: `find_if` on the system path, then the found
manager is moved out, its place is taken by the last element (`iter_swap`) and the last
place is dropped (`pop_back`). The result is the manager found and the list that remains,
or `none` when no manager has the system path. -/
def removeDevice (sysPath : String) :
    List DeviceManager → Option (DeviceManager × List DeviceManager)
  | [] => none
  | device :: rest =>
    if device.sysPath = sysPath then some (device, swapPop rest)
    else (removeDevice sysPath rest).map (fun out => (out.1, device :: out.2))

/-- The method `Service::onDeviceRemoved`. -/
def Service.onDeviceRemoved (s : Service) (description : Description) : Service :=
  match removeDevice description.sysPath s.m_devices with
  | none => s
  | some (manager, rest) =>
    let removed : Service :=
      { s with
        m_devices := rest
        m_trace := s.m_trace ++
          [Event.logged Severity.info, Event.deviceManagerRemoved manager.sysPath] }
    if rest = [] ∧ s.m_autoQuit = true then
      { removed with m_trace := removed.m_trace ++ [Event.quit] }
    else removed

/-- The method `Service::onConfigurationFileChanged`. The outcome of
`Configuration::loadFile` on the path of the held configuration is `loaded`, `none` when
it throws. The method dereferences `m_configuration`: there is no result when it is null. -/
def Service.onConfigurationFileChanged (s : Service) (event : FileWatcherEvent)
    (loaded : Option Configuration) : Option Service :=
  match s.m_configuration with
  | none => none
  | some current =>
    let reloading : Service := { s with m_trace := s.m_trace ++ [Event.logged Severity.info] }
    match loaded with
    | some conf => some (reloading.setConfiguration conf)
    | none =>
      let failed : Service :=
        { reloading with m_trace := reloading.m_trace ++ [Event.logged Severity.critical] }
      if event.ignored = true then
        some
          { failed with
            m_fileWatcherSub := some current.path
            m_trace := failed.m_trace ++
              [Event.watchSubscribed current.path, Event.watchReleased s.m_fileWatcherSub] }
      else some failed

/-- The Service states that device notifications lead to, from any state without device. -/
inductive Service.Reachable : Service → Prop where
  | init (s : Service) : s.m_devices = [] → Service.Reachable s
  | added {s : Service} (description : Description) (opened : Except ErrorCode Opened) :
    Service.Reachable s → Service.Reachable (s.onDeviceAdded description opened)
  | removed {s : Service} (description : Description) :
    Service.Reachable s → Service.Reachable (s.onDeviceRemoved description)

/-- The Service states that device notifications lead to when no device is announced as
added while a manager for its system path is held. -/
inductive Service.ReachableDistinct : Service → Prop where
  | init (s : Service) : s.m_devices = [] → Service.ReachableDistinct s
  | added {s : Service} (description : Description) (opened : Except ErrorCode Opened) :
    Service.ReachableDistinct s → (∀ d ∈ s.m_devices, d.sysPath ≠ description.sysPath) →
    Service.ReachableDistinct (s.onDeviceAdded description opened)
  | removed {s : Service} (description : Description) :
    Service.ReachableDistinct s → Service.ReachableDistinct (s.onDeviceRemoved description)

/-! ## Predicates used in the proofs about runs of frames -/

/-- The record `(key, age)` is tracked, and no other tracked record addresses the slot of
`key`. -/
def Sole (key : Key) (age : Int) (s : FeedbackEffect) : Prop :=
  ∃ l1 l2, s.m_presses = l1 ++ ⟨key, age⟩ :: l2 ∧ ∀ q ∈ l1 ++ l2, q.key.index ≠ key.index

/-- No tracked record addresses the slot of `key`. -/
def Gone (key : Key) (s : FeedbackEffect) : Prop :=
  ∀ q ∈ s.m_presses, q.key.index ≠ key.index

/-- The state `s2` has the configuration and the buffer size of `s1`. -/
def SameConfig (s1 s2 : FeedbackEffect) : Prop :=
  s2.m_color = s1.m_color ∧ s2.m_sustain = s1.m_sustain ∧ s2.m_decay = s1.m_decay ∧
    s2.m_buffer.length = s1.m_buffer.length

/-- Every buffer slot that no tracked record addresses holds alpha 0. -/
def BufferClean (s : FeedbackEffect) : Prop :=
  ∀ (i : Nat) (c : RGBAColor), s.m_buffer[i]? = some c →
    (∀ p ∈ s.m_presses, p.key.index ≠ i) → c.alpha = 0

/-! ## Concrete states used in the scenarios -/

/-- An effect configured with `sustain=100ms`, `decay=50ms` and an opaque colour, on a
device of two keys, in which the key of render index 1 has just been pressed. -/
def scenarioPressed : FeedbackEffect :=
  handleKeyEvent
    { m_color := ⟨255, 255, 255, 255⟩
      m_sustain := 100
      m_decay := 50
      m_buffer := [transparent, transparent]
      m_presses := [] }
    { addr := 0, index := 1 } true

/-- A blend that leaves the target as it is; the scenarios look at the effect only. -/
def keepTarget : RenderTarget → RenderTarget → RenderTarget := fun target _ => target

/-- An effect with the default configuration on a device of one key, in which the key of
render index 0 was pressed 300ms ago. -/
def scenarioFading : FeedbackEffect :=
  { FeedbackEffect.create none none none 1 with m_presses := [⟨⟨0, 0⟩, 300⟩] }

/-- An effect with the default configuration (opaque white, 750ms, 500ms) on a device of
one key, in which the key of render index 0 has just been pressed. -/
def scenarioDefault : FeedbackEffect :=
  handleKeyEvent (FeedbackEffect.create none none none 1) ⟨0, 0⟩ true

/-- A Service with one entry in its context and two device managers, both of which list
the input node `/dev/input/event3`. -/
def scenarioService : Service :=
  { m_configuration := some ⟨"", []⟩
    m_autoQuit := false
    m_active := true
    m_context := ⟨[("window", "term")]⟩
    m_devices :=
      [⟨"/sys/a", "S1", ["/dev/input/event3"], []⟩,
        ⟨"/sys/b", "S2", ["/dev/input/event3", "/dev/input/event4"], []⟩]
    m_fileWatcherSub := none
    m_trace := [] }

/-- The description of the device of the hotplug scenario. -/
def scenarioDescription : Description := ⟨"/dev/x1", "/sys/x1"⟩

/-- What opening the device of the hotplug scenario gives. -/
def scenarioOpened : Opened := ⟨"S1", ["/dev/input/event3"]⟩

/-- A Service without device, with a file-backed configuration, its watch and auto-quit. -/
def scenarioEmpty : Service :=
  { m_configuration := some ⟨"/etc/keyledsd.conf", []⟩
    m_autoQuit := true
    m_active := true
    m_context := ⟨[("window", "term")]⟩
    m_devices := []
    m_fileWatcherSub := some "/etc/keyledsd.conf"
    m_trace := [] }

/-- The Service after two add notifications for the same description, both opened. -/
def scenarioTwice : Service :=
  (scenarioEmpty.onDeviceAdded scenarioDescription (Except.ok scenarioOpened)).onDeviceAdded
    scenarioDescription (Except.ok scenarioOpened)

/-- The default effect on a device of one key, after its key was pressed and a frame of
2000ms, longer than the lifetime, was drawn: the key is evicted, its slot has alpha 0. -/
def scenarioEvicted : FeedbackEffect :=
  { m_color := white
    m_sustain := 750
    m_decay := 500
    m_buffer := [⟨255, 255, 255, 0⟩]
    m_presses := [] }

/-! ## Feedback effect: lemmas on `render` -/

theorem renderKeyPress_key (s : FeedbackEffect) (elapsed : Int) (p : KeyPress) :
    (renderKeyPress s elapsed p).key = p.key := rfl

theorem renderKeyPress_age (s : FeedbackEffect) (elapsed : Int) (p : KeyPress) :
    (renderKeyPress s elapsed p).age = min (p.age + elapsed) (lifetime s) := by
  simp only [renderKeyPress]
  split <;> omega

theorem renderKeyPress_age_le (s : FeedbackEffect) (elapsed : Int) (p : KeyPress) :
    (renderKeyPress s elapsed p).age ≤ lifetime s := by
  rw [renderKeyPress_age]; omega

theorem renderKeyPress_eq (s : FeedbackEffect) (elapsed : Int) (p : KeyPress) :
    renderKeyPress s elapsed p = ⟨p.key, min (p.age + elapsed) (lifetime s)⟩ := by
  have h := renderKeyPress_age s elapsed p
  cases hp : renderKeyPress s elapsed p with
  | mk k a =>
    have hk : k = p.key := by
      have := renderKeyPress_key s elapsed p
      rw [hp] at this; exact this
    rw [hp] at h
    simp only at h
    rw [hk, h]

theorem renderLoop_fst (s : FeedbackEffect) (elapsed : Int) (ps : List KeyPress)
    (buf : RenderTarget) :
    (renderLoop s elapsed ps buf).1 = ps.map (renderKeyPress s elapsed) := by
  induction ps generalizing buf with
  | nil => rfl
  | cons p ps ih => simp [renderLoop, ih]

theorem renderLoop_snd (s : FeedbackEffect) (elapsed : Int) (ps : List KeyPress)
    (buf : RenderTarget) :
    (renderLoop s elapsed ps buf).2 =
      (ps.map (renderKeyPress s elapsed)).foldl
        (fun b p => b.set p.key.index (renderColor s p)) buf := by
  induction ps generalizing buf with
  | nil => rfl
  | cons p ps ih => simp [renderLoop, ih]

theorem renderLoop_length (s : FeedbackEffect) (elapsed : Int) (ps : List KeyPress)
    (buf : RenderTarget) : (renderLoop s elapsed ps buf).2.length = buf.length := by
  induction ps generalizing buf with
  | nil => rfl
  | cons p ps ih => simp [renderLoop, ih]

/-- A slot that no record addresses keeps its colour through the loop. -/
theorem renderLoop_untouched (s : FeedbackEffect) (elapsed : Int) (i : Nat)
    (ps : List KeyPress) (buf : RenderTarget) (h : ∀ q ∈ ps, q.key.index ≠ i) :
    (renderLoop s elapsed ps buf).2[i]? = buf[i]? := by
  induction ps generalizing buf with
  | nil => rfl
  | cons p ps ih =>
    have hp : p.key.index ≠ i := h p (List.mem_cons_self _ _)
    have hps : ∀ q ∈ ps, q.key.index ≠ i := fun q hq => h q (List.mem_cons_of_mem _ hq)
    simp only [renderLoop]
    rw [ih _ hps, renderKeyPress_key, List.getElem?_set_ne hp]

/-- The slot of a record holds, after the loop, the colour computed for that record, when
no later record addresses the same slot. -/
theorem renderLoop_written (s : FeedbackEffect) (elapsed : Int) (l1 : List KeyPress)
    (p : KeyPress) (l2 : List KeyPress) (buf : RenderTarget)
    (hlater : ∀ q ∈ l2, q.key.index ≠ p.key.index) (hin : p.key.index < buf.length) :
    (renderLoop s elapsed (l1 ++ p :: l2) buf).2[p.key.index]? =
      some (renderColor s (renderKeyPress s elapsed p)) := by
  induction l1 generalizing buf with
  | nil =>
    simp only [List.nil_append, renderLoop]
    rw [renderLoop_untouched s elapsed _ l2 _ hlater, renderKeyPress_key,
      List.getElem?_set_self hin]
  | cons q l1 ih =>
    simp only [List.cons_append, renderLoop]
    exact ih _ (by simpa using hin)

/-! ## Feedback effect: lemmas on the alpha value -/

theorem channel_type_eq (x : Int) (h0 : 0 ≤ x) (h1 : x ≤ 255) : (channel_type x : Int) = x := by
  unfold channel_type
  omega

theorem alphaValue_eq_ediv (s : FeedbackEffect) (age : Int) (hd : 0 < s.m_decay)
    (hage : age ≤ lifetime s) :
    alphaValue s age = ((s.m_color.alpha : Int) * min (lifetime s - age) s.m_decay) / s.m_decay := by
  unfold alphaValue
  apply Int.tdiv_eq_ediv _ (le_of_lt hd)
  apply Int.mul_nonneg (Int.ofNat_nonneg _)
  omega

theorem alphaValue_nonneg (s : FeedbackEffect) (age : Int) (hd : 0 < s.m_decay)
    (hage : age ≤ lifetime s) : 0 ≤ alphaValue s age := by
  rw [alphaValue_eq_ediv s age hd hage]
  apply Int.ediv_nonneg _ (le_of_lt hd)
  apply Int.mul_nonneg (Int.ofNat_nonneg _)
  omega

theorem alphaValue_le (s : FeedbackEffect) (age : Int) (hd : 0 < s.m_decay)
    (hage : age ≤ lifetime s) : alphaValue s age ≤ s.m_color.alpha := by
  rw [alphaValue_eq_ediv s age hd hage]
  apply Int.ediv_le_of_le_mul hd
  apply Int.mul_le_mul_of_nonneg_left _ (Int.ofNat_nonneg _)
  omega

theorem alphaValue_full (s : FeedbackEffect) (age : Int) (hd : 0 < s.m_decay)
    (hage : age ≤ s.m_sustain) : alphaValue s age = s.m_color.alpha := by
  unfold alphaValue lifetime
  have hmin : min (s.m_sustain + s.m_decay - age) s.m_decay = s.m_decay := by omega
  rw [hmin]
  exact Int.mul_tdiv_cancel _ (ne_of_gt hd)

theorem alphaValue_expired (s : FeedbackEffect) (hd : 0 < s.m_decay) :
    alphaValue s (lifetime s) = 0 := by
  unfold alphaValue
  have hmin : min (lifetime s - lifetime s) s.m_decay = 0 := by omega
  rw [hmin]
  simp

theorem alphaValue_antitone (s : FeedbackEffect) (a1 a2 : Int) (hd : 0 < s.m_decay)
    (h12 : a1 ≤ a2) (h2 : a2 ≤ lifetime s) : alphaValue s a2 ≤ alphaValue s a1 := by
  rw [alphaValue_eq_ediv s a2 hd h2, alphaValue_eq_ediv s a1 hd (le_trans h12 h2)]
  apply Int.ediv_le_ediv hd
  apply Int.mul_le_mul_of_nonneg_left _ (Int.ofNat_nonneg _)
  omega

/-! ## Feedback effect: `render` as a whole -/

theorem render_eq_some (blend : RenderTarget → RenderTarget → RenderTarget)
    (s : FeedbackEffect) (elapsed : Int) (target : RenderTarget) (hd : s.m_decay ≠ 0) :
    render blend s elapsed target =
      some ({ s with
              m_buffer := (renderLoop s elapsed s.m_presses s.m_buffer).2
              m_presses := (s.m_presses.map (renderKeyPress s elapsed)).filter
                (fun p => decide (p.age < lifetime s)) },
            blend target (renderLoop s elapsed s.m_presses s.m_buffer).2) := by
  unfold render
  rw [if_neg (fun h => hd h.1)]
  simp only [renderLoop_fst, ge_iff_le, not_le]

/-- C1 (render alpha formula). With `decay > 0`, for every state and every `elapsed`,
`render` returns; its loop updates every tracked record to
`age' = min (age + elapsed) (sustain + decay)`, the records kept are the updated ones below
the lifetime, the buffer is the old one with one write per record, in list order, at the
index of its key, and the buffer slot of a record (one that no later record addresses as
well) holds the configured red, green and blue with
`alpha = (configuredAlpha * min (sustain + decay - age') decay) / decay`, the division
truncating. Scenario `sustain=100ms, decay=50ms, alpha=255`, one press at `t=0`: the alpha
written is 255 at age 100, 127 at age 125 and 0 at age 150. -/
theorem render_alpha_formula :
    (∀ (blend : RenderTarget → RenderTarget → RenderTarget) (s : FeedbackEffect)
        (elapsed : Int) (target : RenderTarget),
      0 < s.m_decay → s.m_color.alpha ≤ 255 →
      ∃ s' target', render blend s elapsed target = some (s', target') ∧
        (renderLoop s elapsed s.m_presses s.m_buffer).1 =
          s.m_presses.map
            (fun p => (⟨p.key, min (p.age + elapsed) (s.m_sustain + s.m_decay)⟩ : KeyPress)) ∧
        s'.m_presses =
          (s.m_presses.map
            (fun p => (⟨p.key, min (p.age + elapsed) (s.m_sustain + s.m_decay)⟩ : KeyPress))).filter
            (fun p => decide (p.age < s.m_sustain + s.m_decay)) ∧
        s'.m_buffer =
          (s.m_presses.map
            (fun p => (⟨p.key, min (p.age + elapsed) (s.m_sustain + s.m_decay)⟩ : KeyPress))).foldl
            (fun buffer p => buffer.set p.key.index (renderColor s p)) s.m_buffer ∧
        ∀ (l1 : List KeyPress) (p : KeyPress) (l2 : List KeyPress),
          s.m_presses = l1 ++ p :: l2 → (∀ q ∈ l2, q.key.index ≠ p.key.index) →
          p.key.index < s.m_buffer.length →
          ∃ c, s'.m_buffer[p.key.index]? = some c ∧
            c.red = s.m_color.red ∧ c.green = s.m_color.green ∧ c.blue = s.m_color.blue ∧
            (c.alpha : Int) =
              Int.tdiv
                ((s.m_color.alpha : Int) *
                  min (s.m_sustain + s.m_decay - min (p.age + elapsed) (s.m_sustain + s.m_decay))
                    s.m_decay)
                s.m_decay) ∧
    (renderFrames keepTarget [100] scenarioPressed []).map
        (fun out => (out.1.m_buffer, out.1.m_presses)) =
      some ([transparent, ⟨255, 255, 255, 255⟩], [⟨⟨0, 1⟩, 100⟩]) ∧
    (renderFrames keepTarget [100, 25] scenarioPressed []).map
        (fun out => (out.1.m_buffer, out.1.m_presses)) =
      some ([transparent, ⟨255, 255, 255, 127⟩], [⟨⟨0, 1⟩, 125⟩]) ∧
    (renderFrames keepTarget [100, 25, 25] scenarioPressed []).map
        (fun out => (out.1.m_buffer, out.1.m_presses)) =
      some ([transparent, ⟨255, 255, 255, 0⟩], []) := by
  refine ⟨?_, by decide, by decide, by decide⟩
  intro blend s elapsed target hd ha
  have hmap : s.m_presses.map (renderKeyPress s elapsed) =
      s.m_presses.map
        (fun p => (⟨p.key, min (p.age + elapsed) (s.m_sustain + s.m_decay)⟩ : KeyPress)) := by
    apply List.map_congr_left
    intro p _
    exact renderKeyPress_eq s elapsed p
  refine ⟨_, _, render_eq_some blend s elapsed target (ne_of_gt hd), ?_, ?_, ?_, ?_⟩
  · rw [renderLoop_fst, hmap]
  · show List.filter _ (s.m_presses.map (renderKeyPress s elapsed)) = _
    rw [hmap]; rfl
  · show (renderLoop s elapsed s.m_presses s.m_buffer).2 = _
    rw [renderLoop_snd, hmap]
  · intro l1 p l2 hsplit hlater hin
    refine ⟨renderColor s (renderKeyPress s elapsed p), ?_, rfl, rfl, rfl, ?_⟩
    · show (renderLoop s elapsed s.m_presses s.m_buffer).2[p.key.index]? = _
      rw [hsplit]
      exact renderLoop_written s elapsed l1 p l2 s.m_buffer hlater hin
    · have hle := renderKeyPress_age_le s elapsed p
      have h0 := alphaValue_nonneg s _ hd hle
      have h1 := alphaValue_le s _ hd hle
      show (channel_type (alphaValue s (renderKeyPress s elapsed p).age) : Int) = _
      rw [channel_type_eq _ h0 (by omega), renderKeyPress_age]
      rfl

/-- C1, at a concrete input: half way through the decay of the scenario the slot of the
pressed key holds alpha 127. -/
theorem render_alpha_formula_witness :
    ∃ c, ((render keepTarget scenarioPressed 125 []).map
        (fun out => out.1.m_buffer[1]?)) = some (some c) ∧ (c.alpha : Int) = 127 := by
  obtain ⟨s', target', hr, _, _, _, hbuf⟩ :=
    render_alpha_formula.1 keepTarget scenarioPressed 125 [] (by decide) (by decide)
  obtain ⟨c, hc, _, _, _, ha⟩ := hbuf [] ⟨⟨0, 1⟩, 0⟩ [] (by decide) (by simp) (by decide)
  refine ⟨c, ?_, ?_⟩
  · rw [hr]; simpa using hc
  · rw [ha]; decide

/-! ## Feedback effect: `handleKeyEvent` -/

theorem resetAge_eq_none (key : Key) (ps : List KeyPress) (h : ∀ q ∈ ps, q.key ≠ key) :
    resetAge key ps = none := by
  induction ps with
  | nil => rfl
  | cons p ps ih =>
    have hp : p.key ≠ key := h p (List.mem_cons_self _ _)
    have hps : ∀ q ∈ ps, q.key ≠ key := fun q hq => h q (List.mem_cons_of_mem _ hq)
    simp [resetAge, hp, ih hps]

theorem resetAge_eq_some (key : Key) (l1 : List KeyPress) (p : KeyPress) (l2 : List KeyPress)
    (h1 : ∀ q ∈ l1, q.key ≠ key) (hp : p.key = key) :
    resetAge key (l1 ++ p :: l2) = some (l1 ++ ⟨key, 0⟩ :: l2) := by
  induction l1 with
  | nil => simp [resetAge, hp]
  | cons q l1 ih =>
    have hq : q.key ≠ key := h1 q (List.mem_cons_self _ _)
    have hl1 : ∀ r ∈ l1, r.key ≠ key := fun r hr => h1 r (List.mem_cons_of_mem _ hr)
    simp [resetAge, hq, ih hl1]

theorem handleKeyEvent_presses_new (s : FeedbackEffect) (key : Key) (pressed : Bool)
    (h : ∀ q ∈ s.m_presses, q.key ≠ key) :
    (handleKeyEvent s key pressed).m_presses = s.m_presses ++ [⟨key, 0⟩] := by
  unfold handleKeyEvent
  rw [resetAge_eq_none key _ h]

theorem handleKeyEvent_presses_known (s : FeedbackEffect) (key : Key) (pressed : Bool)
    (l1 : List KeyPress) (p : KeyPress) (l2 : List KeyPress)
    (hs : s.m_presses = l1 ++ p :: l2) (h1 : ∀ q ∈ l1, q.key ≠ key) (hp : p.key = key) :
    (handleKeyEvent s key pressed).m_presses = l1 ++ ⟨key, 0⟩ :: l2 := by
  unfold handleKeyEvent
  rw [hs, resetAge_eq_some key l1 p l2 h1 hp]

theorem handleKeyEvent_fields (s : FeedbackEffect) (key : Key) (pressed : Bool) :
    (handleKeyEvent s key pressed).m_color = s.m_color ∧
    (handleKeyEvent s key pressed).m_sustain = s.m_sustain ∧
    (handleKeyEvent s key pressed).m_decay = s.m_decay ∧
    (handleKeyEvent s key pressed).m_buffer = s.m_buffer := by
  unfold handleKeyEvent
  split <;> exact ⟨rfl, rfl, rfl, rfl⟩

/-- A record that is within the sustain time after the frame is drawn in the configured
colour, alpha included. -/
theorem renderColor_full (s : FeedbackEffect) (elapsed : Int) (p : KeyPress)
    (hd : 0 < s.m_decay) (ha : s.m_color.alpha ≤ 255) (hage : p.age + elapsed ≤ s.m_sustain) :
    renderColor s (renderKeyPress s elapsed p) = s.m_color := by
  have hmin : (renderKeyPress s elapsed p).age = p.age + elapsed := by
    rw [renderKeyPress_age]; unfold lifetime; omega
  have hfull := alphaValue_full s (p.age + elapsed) hd hage
  have hch : channel_type (s.m_color.alpha : Int) = s.m_color.alpha := by
    unfold channel_type; omega
  unfold renderColor
  rw [hmin, hfull, hch]

/-- The slot of the record `(key, 0)` after the first frame that follows its press. -/
theorem render_after_press (blend : RenderTarget → RenderTarget → RenderTarget)
    (s : FeedbackEffect) (key : Key) (elapsed : Int) (target : RenderTarget)
    (l1 l2 : List KeyPress) (hs : s.m_presses = l1 ++ ⟨key, 0⟩ :: l2)
    (hlater : ∀ q ∈ l2, q.key.index ≠ key.index) (hin : key.index < s.m_buffer.length)
    (hd : 0 < s.m_decay) (ha : s.m_color.alpha ≤ 255) (he : elapsed ≤ s.m_sustain) :
    ∃ s' target', render blend s elapsed target = some (s', target') ∧
      s'.m_buffer[key.index]? = some s.m_color ∧ ⟨key, elapsed⟩ ∈ s'.m_presses := by
  refine ⟨_, _, render_eq_some blend s elapsed target (ne_of_gt hd), ?_, ?_⟩
  · show (renderLoop s elapsed s.m_presses s.m_buffer).2[key.index]? = _
    rw [hs, renderLoop_written s elapsed l1 ⟨key, 0⟩ l2 s.m_buffer hlater hin,
      renderColor_full s elapsed ⟨key, 0⟩ hd ha (by simpa using he)]
  · show (⟨key, elapsed⟩ : KeyPress) ∈ List.filter _ (s.m_presses.map (renderKeyPress s elapsed))
    rw [List.mem_filter, hs]
    refine ⟨List.mem_map.mpr ⟨⟨key, 0⟩, by simp, ?_⟩, ?_⟩
    · rw [renderKeyPress_eq]
      have : min ((0 : Int) + elapsed) (lifetime s) = elapsed := by unfold lifetime; omega
      simp only [this]
    · have : elapsed < lifetime s := by unfold lifetime; omega
      simpa using this

/-- C2, refuted: a release event on an untracked key adds a record, and a release event on
a tracked key sets the age of its record back to zero. -/
theorem handleKeyEvent_release_not_ignored :
    (handleKeyEvent (FeedbackEffect.create none none none 1) ⟨0, 0⟩ false).m_presses
        = [⟨⟨0, 0⟩, 0⟩] ∧
      (FeedbackEffect.create none none none 1).m_presses = [] ∧
      (handleKeyEvent scenarioFading ⟨0, 0⟩ false).m_presses = [⟨⟨0, 0⟩, 0⟩] ∧
      scenarioFading.m_presses = [⟨⟨0, 0⟩, 300⟩] := by
  decide

/-- C2, amended. `handleKeyEvent` does not look at `pressed`: a release event is handled as
a press event. The first record of the key has its age set to zero and every other record
is unchanged, or, when the key has no record, one record `(key, 0)` is added at the end;
colour, sustain, decay and buffer are unchanged. -/
theorem handleKeyEvent_release_as_press (s : FeedbackEffect) (key : Key) :
    handleKeyEvent s key false = handleKeyEvent s key true ∧
    (∀ (l1 : List KeyPress) (p : KeyPress) (l2 : List KeyPress),
      s.m_presses = l1 ++ p :: l2 → (∀ q ∈ l1, q.key ≠ key) → p.key = key →
      (handleKeyEvent s key false).m_presses = l1 ++ ⟨key, 0⟩ :: l2) ∧
    ((∀ q ∈ s.m_presses, q.key ≠ key) →
      (handleKeyEvent s key false).m_presses = s.m_presses ++ [⟨key, 0⟩]) ∧
    (handleKeyEvent s key false).m_color = s.m_color ∧
    (handleKeyEvent s key false).m_sustain = s.m_sustain ∧
    (handleKeyEvent s key false).m_decay = s.m_decay ∧
    (handleKeyEvent s key false).m_buffer = s.m_buffer :=
  ⟨rfl,
    fun l1 p l2 hs h1 hp => handleKeyEvent_presses_known s key false l1 p l2 hs h1 hp,
    fun h => handleKeyEvent_presses_new s key false h,
    handleKeyEvent_fields s key false⟩

/-- C2, amended, at a concrete input: the release of a key pressed 300ms ago. -/
theorem handleKeyEvent_release_as_press_witness :
    (handleKeyEvent scenarioFading ⟨0, 0⟩ false).m_presses = [] ++ ⟨⟨0, 0⟩, 0⟩ :: [] ∧
    (handleKeyEvent (FeedbackEffect.create none none none 1) ⟨0, 0⟩ false).m_presses =
      [] ++ [⟨⟨0, 0⟩, 0⟩] :=
  ⟨(handleKeyEvent_release_as_press scenarioFading ⟨0, 0⟩).2.1 [] ⟨⟨0, 0⟩, 300⟩ [] rfl
      (by simp) rfl,
    (handleKeyEvent_release_as_press (FeedbackEffect.create none none none 1) ⟨0, 0⟩).2.2.1
      (by simp [FeedbackEffect.create])⟩

/-- C3 (a re-press restarts the fade). A press on a key that has a record sets the age of
that record (the first one of the key) to zero and leaves the number of records and every
other record unchanged; a press on a key without a record adds the one record `(key, 0)`
at the end. In both cases, with `decay > 0`, the next `render` with
`0 <= elapsed <= sustain` returns and leaves the configured colour, with
`alpha = configuredAlpha`, in the slot of the key (a slot inside the buffer that no later
record addresses), whatever the age of the key was before the press. -/
theorem handleKeyEvent_press_restarts (s : FeedbackEffect) (key : Key) :
    (∀ (l1 : List KeyPress) (p : KeyPress) (l2 : List KeyPress),
      s.m_presses = l1 ++ p :: l2 → (∀ q ∈ l1, q.key ≠ key) → p.key = key →
      (handleKeyEvent s key true).m_presses = l1 ++ ⟨key, 0⟩ :: l2 ∧
      ∀ (blend : RenderTarget → RenderTarget → RenderTarget) (elapsed : Int)
        (target : RenderTarget),
        0 < s.m_decay → s.m_color.alpha ≤ 255 → 0 ≤ elapsed → elapsed ≤ s.m_sustain →
        key.index < s.m_buffer.length → (∀ q ∈ l2, q.key.index ≠ key.index) →
        ∃ s' target', render blend (handleKeyEvent s key true) elapsed target
            = some (s', target') ∧
          s'.m_buffer[key.index]? = some s.m_color ∧ ⟨key, elapsed⟩ ∈ s'.m_presses) ∧
    ((∀ q ∈ s.m_presses, q.key ≠ key) →
      (handleKeyEvent s key true).m_presses = s.m_presses ++ [⟨key, 0⟩] ∧
      ∀ (blend : RenderTarget → RenderTarget → RenderTarget) (elapsed : Int)
        (target : RenderTarget),
        0 < s.m_decay → s.m_color.alpha ≤ 255 → 0 ≤ elapsed → elapsed ≤ s.m_sustain →
        key.index < s.m_buffer.length →
        ∃ s' target', render blend (handleKeyEvent s key true) elapsed target
            = some (s', target') ∧
          s'.m_buffer[key.index]? = some s.m_color ∧ ⟨key, elapsed⟩ ∈ s'.m_presses) := by
  obtain ⟨hc, hsu, hde, hbu⟩ := handleKeyEvent_fields s key true
  constructor
  · intro l1 p l2 hs h1 hp
    have hpresses := handleKeyEvent_presses_known s key true l1 p l2 hs h1 hp
    refine ⟨hpresses, ?_⟩
    intro blend elapsed target hd ha _ he hin hlater
    have h := render_after_press blend (handleKeyEvent s key true) key elapsed target l1 l2
      hpresses hlater (by rw [hbu]; exact hin) (by rw [hde]; exact hd)
      (by rw [hc]; exact ha) (by rw [hsu]; exact he)
    rw [hc] at h
    exact h
  · intro hnew
    have hpresses := handleKeyEvent_presses_new s key true hnew
    refine ⟨hpresses, ?_⟩
    intro blend elapsed target hd ha _ he hin
    have h := render_after_press blend (handleKeyEvent s key true) key elapsed target
      s.m_presses [] hpresses (by simp) (by rw [hbu]; exact hin) (by rw [hde]; exact hd)
      (by rw [hc]; exact ha) (by rw [hsu]; exact he)
    rw [hc] at h
    exact h

/-- C3, at a concrete input: a key that is 300ms old under the default configuration is
pressed again and drawn 16ms later; and a first press on an empty effect, drawn likewise. -/
theorem handleKeyEvent_press_restarts_witness :
    ((handleKeyEvent scenarioFading ⟨0, 0⟩ true).m_presses = [] ++ ⟨⟨0, 0⟩, 0⟩ :: [] ∧
      ∃ s' target', render keepTarget (handleKeyEvent scenarioFading ⟨0, 0⟩ true) 16 []
          = some (s', target') ∧
        s'.m_buffer[0]? = some white ∧ ⟨⟨0, 0⟩, 16⟩ ∈ s'.m_presses) ∧
    ((handleKeyEvent (FeedbackEffect.create none none none 1) ⟨0, 0⟩ true).m_presses
        = [] ++ [⟨⟨0, 0⟩, 0⟩] ∧
      ∃ s' target',
        render keepTarget (handleKeyEvent (FeedbackEffect.create none none none 1) ⟨0, 0⟩ true)
          16 [] = some (s', target') ∧
        s'.m_buffer[0]? = some white ∧ ⟨⟨0, 0⟩, 16⟩ ∈ s'.m_presses) := by
  constructor
  · have h := (handleKeyEvent_press_restarts scenarioFading ⟨0, 0⟩).1 [] ⟨⟨0, 0⟩, 300⟩ [] rfl
      (by simp) rfl
    exact ⟨h.1, h.2 keepTarget 16 [] (by decide) (by decide) (by decide) (by decide)
      (by decide) (by simp)⟩
  · have h := (handleKeyEvent_press_restarts (FeedbackEffect.create none none none 1) ⟨0, 0⟩).2
      (by simp [FeedbackEffect.create])
    exact ⟨h.1, h.2 keepTarget 16 [] (by decide) (by decide) (by decide) (by decide)
      (by decide)⟩

/-! ## Feedback effect: one key through a run of frames -/

theorem SameConfig.refl (s : FeedbackEffect) : SameConfig s s := ⟨rfl, rfl, rfl, rfl⟩

theorem SameConfig.trans {s1 s2 s3 : FeedbackEffect} (h12 : SameConfig s1 s2)
    (h23 : SameConfig s2 s3) : SameConfig s1 s3 :=
  ⟨h23.1.trans h12.1, h23.2.1.trans h12.2.1, h23.2.2.1.trans h12.2.2.1,
    h23.2.2.2.trans h12.2.2.2⟩

theorem SameConfig.lifetime_eq {s1 s2 : FeedbackEffect} (h : SameConfig s1 s2) :
    lifetime s2 = lifetime s1 := by
  unfold lifetime; rw [h.2.1, h.2.2.1]

theorem SameConfig.renderColor_eq {s1 s2 : FeedbackEffect} (h : SameConfig s1 s2)
    (p : KeyPress) : renderColor s2 p = renderColor s1 p := by
  unfold renderColor alphaValue lifetime
  rw [h.1, h.2.1, h.2.2.1]

theorem render_sameConfig (s : FeedbackEffect) (elapsed : Int) :
    SameConfig s
      { s with
        m_buffer := (renderLoop s elapsed s.m_presses s.m_buffer).2
        m_presses := (s.m_presses.map (renderKeyPress s elapsed)).filter
          (fun p => decide (p.age < lifetime s)) } :=
  ⟨rfl, rfl, rfl, renderLoop_length s elapsed s.m_presses s.m_buffer⟩

theorem aged_filter_index (s : FeedbackEffect) (elapsed : Int) (l : List KeyPress) (i : Nat)
    (h : ∀ q ∈ l, q.key.index ≠ i) :
    ∀ q ∈ (l.map (renderKeyPress s elapsed)).filter (fun p => decide (p.age < lifetime s)),
      q.key.index ≠ i := by
  intro q hq
  rw [List.mem_filter, List.mem_map] at hq
  obtain ⟨⟨r, hr, rfl⟩, _⟩ := hq
  exact h r hr

/-- One frame on a state in which `key` has left the tracked list. -/
theorem render_gone (blend : RenderTarget → RenderTarget → RenderTarget)
    (s : FeedbackEffect) (key : Key) (elapsed : Int) (target : RenderTarget)
    (hgone : Gone key s) (hd : 0 < s.m_decay) :
    ∃ s' target', render blend s elapsed target = some (s', target') ∧ SameConfig s s' ∧
      s'.m_buffer[key.index]? = s.m_buffer[key.index]? ∧ Gone key s' := by
  refine ⟨_, _, render_eq_some blend s elapsed target (ne_of_gt hd),
    render_sameConfig s elapsed, ?_, ?_⟩
  · exact renderLoop_untouched s elapsed key.index s.m_presses s.m_buffer hgone
  · exact aged_filter_index s elapsed s.m_presses key.index hgone

/-- One frame on a state in which `key` is tracked with a slot of its own. -/
theorem render_sole (blend : RenderTarget → RenderTarget → RenderTarget)
    (s : FeedbackEffect) (key : Key) (age elapsed : Int) (target : RenderTarget)
    (hsole : Sole key age s) (hd : 0 < s.m_decay) (hin : key.index < s.m_buffer.length) :
    ∃ s' target', render blend s elapsed target = some (s', target') ∧ SameConfig s s' ∧
      s'.m_buffer[key.index]? =
        some (renderColor s ⟨key, min (age + elapsed) (lifetime s)⟩) ∧
      (age + elapsed < lifetime s → Sole key (age + elapsed) s') ∧
      (lifetime s ≤ age + elapsed → Gone key s') := by
  obtain ⟨l1, l2, hs, hothers⟩ := hsole
  have h1 : ∀ q ∈ l1, q.key.index ≠ key.index :=
    fun q hq => hothers q (List.mem_append_left _ hq)
  have h2 : ∀ q ∈ l2, q.key.index ≠ key.index :=
    fun q hq => hothers q (List.mem_append_right _ hq)
  have haged : renderKeyPress s elapsed ⟨key, age⟩ = ⟨key, min (age + elapsed) (lifetime s)⟩ :=
    renderKeyPress_eq s elapsed ⟨key, age⟩
  have hlist : (s.m_presses.map (renderKeyPress s elapsed)).filter
        (fun p => decide (p.age < lifetime s)) =
      (l1.map (renderKeyPress s elapsed)).filter (fun p => decide (p.age < lifetime s)) ++
        ((if min (age + elapsed) (lifetime s) < lifetime s
            then [(⟨key, min (age + elapsed) (lifetime s)⟩ : KeyPress)] else []) ++
          (l2.map (renderKeyPress s elapsed)).filter (fun p => decide (p.age < lifetime s))) := by
    rw [hs, List.map_append, List.map_cons, List.filter_append, List.filter_cons, haged]
    by_cases hlt : min (age + elapsed) (lifetime s) < lifetime s
    · simp [hlt]
    · simp [hlt]
  refine ⟨_, _, render_eq_some blend s elapsed target (ne_of_gt hd),
    render_sameConfig s elapsed, ?_, ?_, ?_⟩
  · show (renderLoop s elapsed s.m_presses s.m_buffer).2[key.index]? = _
    rw [hs, ← haged]
    exact renderLoop_written s elapsed l1 ⟨key, age⟩ l2 s.m_buffer h2 hin
  · intro hlt
    have hmin : min (age + elapsed) (lifetime s) = age + elapsed := by omega
    refine ⟨(l1.map (renderKeyPress s elapsed)).filter (fun p => decide (p.age < lifetime s)),
      (l2.map (renderKeyPress s elapsed)).filter (fun p => decide (p.age < lifetime s)),
      ?_, ?_⟩
    · show List.filter _ (s.m_presses.map (renderKeyPress s elapsed)) = _
      rw [hlist, hmin, if_pos hlt]
      rfl
    · intro q hq
      rcases List.mem_append.mp hq with hq | hq
      · exact aged_filter_index s elapsed l1 key.index h1 q hq
      · exact aged_filter_index s elapsed l2 key.index h2 q hq
  · intro hge
    have hmin : ¬ (min (age + elapsed) (lifetime s) < lifetime s) := by omega
    intro q hq
    have hq' : q ∈ List.filter (fun p => decide (p.age < lifetime s))
        (s.m_presses.map (renderKeyPress s elapsed)) := hq
    rw [hlist, if_neg hmin] at hq'
    rcases List.mem_append.mp hq' with hq1 | hq2
    · exact aged_filter_index s elapsed l1 key.index h1 q hq1
    · exact aged_filter_index s elapsed l2 key.index h2 q (by simpa using hq2)

/-- A run of frames on a state in which `key` has left the tracked list. -/
theorem renderFrames_gone (blend : RenderTarget → RenderTarget → RenderTarget)
    (key : Key) (frames : List Int) (s : FeedbackEffect) (target : RenderTarget)
    (hgone : Gone key s) (hd : 0 < s.m_decay) :
    ∃ s' target', renderFrames blend frames s target = some (s', target') ∧ SameConfig s s' ∧
      s'.m_buffer[key.index]? = s.m_buffer[key.index]? ∧ Gone key s' := by
  induction frames generalizing s target with
  | nil => exact ⟨s, target, rfl, SameConfig.refl s, rfl, hgone⟩
  | cons e frames ih =>
    obtain ⟨s1, t1, hr, hcfg, hbuf, hgone1⟩ := render_gone blend s key e target hgone hd
    obtain ⟨s2, t2, hr2, hcfg2, hbuf2, hgone2⟩ :=
      ih s1 t1 hgone1 (by rw [hcfg.2.2.1]; exact hd)
    refine ⟨s2, t2, ?_, hcfg.trans hcfg2, hbuf2.trans hbuf, hgone2⟩
    simp only [renderFrames, hr]
    exact hr2

/-- A run of frames, none of negative duration, on a state in which `key` is tracked with
a slot of its own: the key stays tracked, with the durations added to its age, as long as
the sum is below the lifetime, and the slot holds the colour of the capped age. -/
theorem renderFrames_sole (blend : RenderTarget → RenderTarget → RenderTarget)
    (key : Key) (frames : List Int) (s : FeedbackEffect) (age : Int) (target : RenderTarget)
    (hsole : Sole key age s) (hd : 0 < s.m_decay) (hin : key.index < s.m_buffer.length)
    (hpos : ∀ e ∈ frames, 0 ≤ e) :
    ∃ s' target', renderFrames blend frames s target = some (s', target') ∧ SameConfig s s' ∧
      (age + frames.sum < lifetime s → Sole key (age + frames.sum) s') ∧
      (frames ≠ [] → lifetime s ≤ age + frames.sum → Gone key s') ∧
      (frames ≠ [] → s'.m_buffer[key.index]? =
        some (renderColor s ⟨key, min (age + frames.sum) (lifetime s)⟩)) := by
  induction frames generalizing s age target with
  | nil =>
    refine ⟨s, target, rfl, SameConfig.refl s, ?_, fun h => absurd rfl h,
      fun h => absurd rfl h⟩
    intro _
    simpa using hsole
  | cons e frames ih =>
    have he : 0 ≤ e := hpos e (List.mem_cons_self _ _)
    have hrest : ∀ x ∈ frames, 0 ≤ x := fun x hx => hpos x (List.mem_cons_of_mem _ hx)
    have hsum : 0 ≤ frames.sum := List.sum_nonneg hrest
    obtain ⟨s1, t1, hr, hcfg, hbuf, hstay, hleave⟩ :=
      render_sole blend s key age e target hsole hd hin
    have hd1 : 0 < s1.m_decay := by rw [hcfg.2.2.1]; exact hd
    have hin1 : key.index < s1.m_buffer.length := by rw [hcfg.2.2.2]; exact hin
    have hlife : lifetime s1 = lifetime s := hcfg.lifetime_eq
    rw [List.sum_cons]
    by_cases hlt : age + e < lifetime s
    · obtain ⟨s2, t2, hr2, hcfg2, hstay2, hleave2, hbuf2⟩ :=
        ih s1 (age + e) t1 (hstay hlt) hd1 hin1 hrest
      refine ⟨s2, t2, ?_, hcfg.trans hcfg2, ?_, ?_, ?_⟩
      · simp only [renderFrames, hr]
        exact hr2
      · intro h
        have := hstay2 (by rw [hlife]; omega)
        rw [show age + (e + frames.sum) = age + e + frames.sum by ring]
        exact this
      · intro _ h
        by_cases hnil : frames = []
        · subst hnil
          simp at h
          omega
        · exact hleave2 hnil (by rw [hlife]; omega)
      · intro _
        by_cases hnil : frames = []
        · subst hnil
          simp only [renderFrames] at hr2
          cases hr2
          simpa using hbuf
        · rw [hbuf2 hnil, hcfg.renderColor_eq, hlife,
            show age + (e + frames.sum) = age + e + frames.sum by ring]
    · have hgone1 : Gone key s1 := hleave (by omega)
      obtain ⟨s2, t2, hr2, hcfg2, hbuf2, hgone2⟩ :=
        renderFrames_gone blend key frames s1 t1 hgone1 hd1
      refine ⟨s2, t2, ?_, hcfg.trans hcfg2, ?_, fun _ _ => hgone2, ?_⟩
      · simp only [renderFrames, hr]
        exact hr2
      · intro h
        omega
      · intro _
        rw [hbuf2, hbuf]
        have h1 : min (age + e) (lifetime s) = lifetime s := by omega
        have h2 : min (age + (e + frames.sum)) (lifetime s) = lifetime s := by omega
        rw [h1, h2]

/-! ## Feedback effect: the key just pressed, and the alpha stored for an age -/

theorem renderColor_sustain (s : FeedbackEffect) (p : KeyPress) (hd : 0 < s.m_decay)
    (ha : s.m_color.alpha ≤ 255) (hage : p.age ≤ s.m_sustain) : renderColor s p = s.m_color := by
  have hfull := alphaValue_full s p.age hd hage
  have hch : channel_type (s.m_color.alpha : Int) = s.m_color.alpha := by
    unfold channel_type; omega
  unfold renderColor
  rw [hfull, hch]

/-- The stored alpha is the value of line 60 itself: the conversion to a channel does not
wrap around. -/
theorem renderColor_alpha (s : FeedbackEffect) (p : KeyPress) (hd : 0 < s.m_decay)
    (ha : s.m_color.alpha ≤ 255) (hage : p.age ≤ lifetime s) :
    ((renderColor s p).alpha : Int) = alphaValue s p.age := by
  have h0 := alphaValue_nonneg s p.age hd hage
  have h1 := alphaValue_le s p.age hd hage
  show (channel_type (alphaValue s p.age) : Int) = _
  exact channel_type_eq _ h0 (by omega)

theorem alphaValue_strict (s : FeedbackEffect) (a1 a2 : Int) (hd : 0 < s.m_decay)
    (hs : s.m_sustain ≤ a1) (h12 : a1 ≤ a2) (h2 : a2 ≤ lifetime s)
    (hstep : s.m_decay ≤ (s.m_color.alpha : Int) * (a2 - a1)) :
    alphaValue s a2 < alphaValue s a1 := by
  rw [alphaValue_eq_ediv s a2 hd h2, alphaValue_eq_ediv s a1 hd (le_trans h12 h2)]
  have hm1 : min (lifetime s - a1) s.m_decay = lifetime s - a1 := by unfold lifetime; omega
  have hm2 : min (lifetime s - a2) s.m_decay = lifetime s - a2 := by unfold lifetime; omega
  rw [hm1, hm2]
  have hsplit : (s.m_color.alpha : Int) * (lifetime s - a1) =
      (s.m_color.alpha : Int) * (lifetime s - a2) + (s.m_color.alpha : Int) * (a2 - a1) := by
    ring
  have hle : (s.m_color.alpha : Int) * (lifetime s - a2) + 1 * s.m_decay ≤
      (s.m_color.alpha : Int) * (lifetime s - a1) := by
    rw [hsplit]; omega
  have hdiv := Int.ediv_le_ediv hd hle
  rw [Int.add_mul_ediv_right _ _ (ne_of_gt hd)] at hdiv
  omega

/-- After a press the record `(key, 0)` is tracked with a slot of its own, when the keys of
the tracked records were pairwise distinct and the records of other keys address other
slots. -/
theorem handleKeyEvent_sole (s : FeedbackEffect) (key : Key) (pressed : Bool)
    (hkeys : (s.m_presses.map (fun p => p.key)).Nodup)
    (hslots : ∀ q ∈ s.m_presses, q.key ≠ key → q.key.index ≠ key.index) :
    Sole key 0 (handleKeyEvent s key pressed) := by
  by_cases h : ∃ p ∈ s.m_presses, p.key = key
  · obtain ⟨p, hp, hpk⟩ := h
    obtain ⟨l1, l2, hs⟩ := List.append_of_mem hp
    rw [hs, List.map_append, List.map_cons, List.nodup_middle, List.nodup_cons,
      ← List.map_append] at hkeys
    have hne : ∀ q ∈ l1 ++ l2, q.key ≠ key := by
      intro q hq hqk
      apply hkeys.1
      rw [hpk, ← hqk]
      exact List.mem_map.mpr ⟨q, hq, rfl⟩
    have hmem : ∀ q ∈ l1 ++ l2, q ∈ s.m_presses := by
      intro q hq
      rw [hs]
      rcases List.mem_append.mp hq with h1 | h2
      · exact List.mem_append_left _ h1
      · exact List.mem_append_right _ (List.mem_cons_of_mem _ h2)
    refine ⟨l1, l2, ?_, fun q hq => hslots q (hmem q hq) (hne q hq)⟩
    exact handleKeyEvent_presses_known s key pressed l1 p l2 hs
      (fun q hq => hne q (List.mem_append_left _ hq)) hpk
  · have hnew : ∀ q ∈ s.m_presses, q.key ≠ key := fun q hq hqk => h ⟨q, hq, hqk⟩
    refine ⟨s.m_presses, [], handleKeyEvent_presses_new s key pressed hnew, ?_⟩
    intro q hq
    rw [List.append_nil] at hq
    exact hslots q hq (hnew q hq)

/-- A key pressed once and then only rendered, frame after frame. -/
theorem renderFrames_after_press (blend : RenderTarget → RenderTarget → RenderTarget)
    (s : FeedbackEffect) (key : Key) (frames : List Int) (target : RenderTarget)
    (hd : 0 < s.m_decay) (hpos : ∀ e ∈ frames, 0 ≤ e) (hin : key.index < s.m_buffer.length)
    (hkeys : (s.m_presses.map (fun p => p.key)).Nodup)
    (hslots : ∀ q ∈ s.m_presses, q.key ≠ key → q.key.index ≠ key.index) :
    ∃ s' target', renderFrames blend frames (handleKeyEvent s key true) target
        = some (s', target') ∧
      (frames.sum < lifetime s → ⟨key, frames.sum⟩ ∈ s'.m_presses) ∧
      (frames ≠ [] → lifetime s ≤ frames.sum → ∀ q ∈ s'.m_presses, q.key ≠ key) ∧
      (frames ≠ [] → s'.m_buffer[key.index]? =
        some (renderColor s ⟨key, min frames.sum (lifetime s)⟩)) := by
  obtain ⟨hc, hsu, hde, hbu⟩ := handleKeyEvent_fields s key true
  have hcfg : SameConfig s (handleKeyEvent s key true) := ⟨hc, hsu, hde, by rw [hbu]⟩
  have hlife := hcfg.lifetime_eq
  obtain ⟨s', t', hr, _, hstay, hleave, hbuf⟩ :=
    renderFrames_sole blend key frames (handleKeyEvent s key true) 0 target
      (handleKeyEvent_sole s key true hkeys hslots) (by rw [hde]; exact hd)
      (by rw [hbu]; exact hin) hpos
  rw [hlife, Int.zero_add] at hstay hleave hbuf
  refine ⟨s', t', hr, ?_, ?_, ?_⟩
  · intro h
    obtain ⟨l1, l2, hl, _⟩ := hstay h
    rw [hl]
    simp
  · intro hne h q hq hqk
    exact hleave hne h q hq (by rw [hqk])
  · intro hne
    rw [hbuf hne, hcfg.renderColor_eq]

/-! ## Feedback effect: the phases of a single press -/

/-- C4 (single-press phases and eviction). With `decay > 0`, `render` keeps, in their
order, exactly the updated records whose age is below `sustain + decay`. For a key pressed
once and then only rendered (`sustain >= 0`, no frame of negative duration; the tracked
keys pairwise distinct and the slot of the key addressed by no other key), with `T` the
sum of the frame durations since the press: every run of frames returns, the slot of the
key holds the configured colour with `alpha = configuredAlpha` after a frame with
`T <= sustain`, and the key is in the tracked list after the frames if and only if
`T < sustain + decay` (its record then has age `T`). -/
theorem render_single_press_phases :
    (∀ (blend : RenderTarget → RenderTarget → RenderTarget) (s : FeedbackEffect)
        (elapsed : Int) (target : RenderTarget),
      0 < s.m_decay →
      ∃ s' target', render blend s elapsed target = some (s', target') ∧
        s'.m_presses = (s.m_presses.map (renderKeyPress s elapsed)).filter
          (fun p => decide (p.age < s.m_sustain + s.m_decay))) ∧
    (∀ (blend : RenderTarget → RenderTarget → RenderTarget) (s : FeedbackEffect) (key : Key)
        (frames : List Int) (target : RenderTarget),
      0 < s.m_decay → 0 ≤ s.m_sustain → s.m_color.alpha ≤ 255 → (∀ e ∈ frames, 0 ≤ e) →
      key.index < s.m_buffer.length →
      (s.m_presses.map (fun p => p.key)).Nodup →
      (∀ q ∈ s.m_presses, q.key ≠ key → q.key.index ≠ key.index) →
      ∃ s' target', renderFrames blend frames (handleKeyEvent s key true) target
          = some (s', target') ∧
        (frames ≠ [] → frames.sum ≤ s.m_sustain → s'.m_buffer[key.index]? = some s.m_color) ∧
        ((∃ p ∈ s'.m_presses, p.key = key) ↔ frames.sum < s.m_sustain + s.m_decay) ∧
        (frames.sum < s.m_sustain + s.m_decay → ⟨key, frames.sum⟩ ∈ s'.m_presses)) := by
  constructor
  · intro blend s elapsed target hd
    exact ⟨_, _, render_eq_some blend s elapsed target (ne_of_gt hd), rfl⟩
  · intro blend s key frames target hd hsus ha hpos hin hkeys hslots
    obtain ⟨s', t', hr, hstay, hleave, hbuf⟩ :=
      renderFrames_after_press blend s key frames target hd hpos hin hkeys hslots
    have hlife : lifetime s = s.m_sustain + s.m_decay := rfl
    rw [hlife] at hstay hleave
    refine ⟨s', t', hr, ?_, ⟨?_, ?_⟩, hstay⟩
    · intro hne hT
      have hmin : min frames.sum (lifetime s) = frames.sum := by rw [hlife]; omega
      rw [hbuf hne, hmin]
      exact congrArg some (renderColor_sustain s ⟨key, frames.sum⟩ hd ha hT)
    · rintro ⟨p, hp, hpk⟩
      by_contra hge
      have hne : frames ≠ [] := by
        intro hnil
        subst hnil
        simp at hge
        omega
      exact hleave hne (by omega) p hp hpk
    · intro hlt
      exact ⟨_, hstay hlt, rfl⟩

/-- C4, at a concrete input: the default configuration, a key pressed and drawn after
300ms and again after 400ms (within the sustain time of 750ms), and one single frame. -/
theorem render_single_press_phases_witness :
    (∃ s' target', render keepTarget scenarioFading 1000 [] = some (s', target') ∧
      s'.m_presses = []) ∧
    (∃ s' target',
      renderFrames keepTarget [300, 400]
          (handleKeyEvent (FeedbackEffect.create none none none 1) ⟨0, 0⟩ true) []
        = some (s', target') ∧
      s'.m_buffer[0]? = some white ∧ ⟨⟨0, 0⟩, 700⟩ ∈ s'.m_presses) := by
  constructor
  · obtain ⟨s', t', hr, hp⟩ :=
      render_single_press_phases.1 keepTarget scenarioFading 1000 [] (by decide)
    exact ⟨s', t', hr, by rw [hp]; decide⟩
  · obtain ⟨s', t', hr, hfull, _, hmem⟩ :=
      render_single_press_phases.2 keepTarget (FeedbackEffect.create none none none 1) ⟨0, 0⟩
        [300, 400] [] (by decide) (by decide) (by decide) (by decide) (by decide) (by decide)
        (by decide)
    exact ⟨s', t', hr, hfull (by decide) (by decide), hmem (by decide)⟩

/-- C5, refuted: under the default configuration (sustain 750ms, decay 500ms, alpha 255)
the cumulative ages 752 and 753 lie inside the decay window and the alpha stored is 253 at
both, so it is not strictly less at the later age. -/
theorem render_decay_not_strict :
    (renderFrames keepTarget [752] scenarioDefault []).map (fun out => out.1.m_buffer)
        = some [⟨255, 255, 255, 253⟩] ∧
      (renderFrames keepTarget [752, 1] scenarioDefault []).map (fun out => out.1.m_buffer)
        = some [⟨255, 255, 255, 253⟩] ∧
      (renderFrames keepTarget [753] scenarioDefault []).map (fun out => out.1.m_buffer)
        = some [⟨255, 255, 255, 253⟩] := by
  decide

/-- C5, amended. For a key pressed once and then only rendered (`decay > 0`, no frame of
negative duration; the tracked keys pairwise distinct and the slot of the key addressed by
no other key), and two cumulative ages `a1 < a2` with `sustain < a1` and
`a2 < sustain + decay`, each the sum of a run of at least one frame: the alpha stored at
age `a2` is
less than or equal to the alpha stored at age `a1`, and it is strictly less whenever
`configuredAlpha * (a2 - a1) >= decay`. -/
theorem render_decay_monotone (blend : RenderTarget → RenderTarget → RenderTarget)
    (s : FeedbackEffect) (key : Key) (frames1 frames2 : List Int) (target : RenderTarget)
    (hd : 0 < s.m_decay) (ha : s.m_color.alpha ≤ 255)
    (hne1 : frames1 ≠ []) (hpos1 : ∀ e ∈ frames1, 0 ≤ e) (hpos2 : ∀ e ∈ frames2, 0 ≤ e)
    (hin : key.index < s.m_buffer.length)
    (hkeys : (s.m_presses.map (fun p => p.key)).Nodup)
    (hslots : ∀ q ∈ s.m_presses, q.key ≠ key → q.key.index ≠ key.index)
    (h1 : s.m_sustain < frames1.sum) (h12 : frames1.sum < frames2.sum)
    (h2 : frames2.sum < s.m_sustain + s.m_decay) :
    ∃ s1 target1 s2 target2 c1 c2,
      renderFrames blend frames1 (handleKeyEvent s key true) target = some (s1, target1) ∧
      renderFrames blend frames2 (handleKeyEvent s key true) target = some (s2, target2) ∧
      s1.m_buffer[key.index]? = some c1 ∧ s2.m_buffer[key.index]? = some c2 ∧
      c2.alpha ≤ c1.alpha ∧
      (s.m_decay ≤ (s.m_color.alpha : Int) * (frames2.sum - frames1.sum) →
        c2.alpha < c1.alpha) := by
  obtain ⟨s1, t1, hr1, _, _, hbuf1⟩ :=
    renderFrames_after_press blend s key frames1 target hd hpos1 hin hkeys hslots
  obtain ⟨s2, t2, hr2, _, _, hbuf2⟩ :=
    renderFrames_after_press blend s key frames2 target hd hpos2 hin hkeys hslots
  have hlife : lifetime s = s.m_sustain + s.m_decay := rfl
  have hsum1 : 0 ≤ frames1.sum := List.sum_nonneg hpos1
  have hne2 : frames2 ≠ [] := by
    intro hnil
    rw [hnil, List.sum_nil] at h12
    omega
  have hm1 : min frames1.sum (lifetime s) = frames1.sum := by rw [hlife]; omega
  have hm2 : min frames2.sum (lifetime s) = frames2.sum := by rw [hlife]; omega
  have hb1 := hbuf1 hne1
  have hb2 := hbuf2 hne2
  rw [hm1] at hb1
  rw [hm2] at hb2
  have e1 := renderColor_alpha s ⟨key, frames1.sum⟩ hd ha (by rw [hlife]; show frames1.sum ≤ _; omega)
  have e2 := renderColor_alpha s ⟨key, frames2.sum⟩ hd ha (by rw [hlife]; show frames2.sum ≤ _; omega)
  have hmono := alphaValue_antitone s frames1.sum frames2.sum hd (le_of_lt h12)
    (by rw [hlife]; omega)
  refine ⟨s1, t1, s2, t2, _, _, hr1, hr2, hb1, hb2, ?_, ?_⟩
  · have : ((renderColor s ⟨key, frames2.sum⟩).alpha : Int) ≤
        ((renderColor s ⟨key, frames1.sum⟩).alpha : Int) := by
      rw [e1, e2]; exact hmono
    exact_mod_cast this
  · intro hstep
    have hstrict := alphaValue_strict s frames1.sum frames2.sum hd (le_of_lt h1) (le_of_lt h12)
      (by rw [hlife]; omega) hstep
    have : ((renderColor s ⟨key, frames2.sum⟩).alpha : Int) <
        ((renderColor s ⟨key, frames1.sum⟩).alpha : Int) := by
      rw [e1, e2]; exact hstrict
    exact_mod_cast this

/-- C5, amended, at a concrete input: the default configuration at the cumulative ages
800 and 900, where `255 * 100 >= 500`. -/
theorem render_decay_monotone_witness :
    ∃ s1 target1 s2 target2 c1 c2,
      renderFrames keepTarget [800]
          (handleKeyEvent (FeedbackEffect.create none none none 1) ⟨0, 0⟩ true) []
        = some (s1, target1) ∧
      renderFrames keepTarget [800, 100]
          (handleKeyEvent (FeedbackEffect.create none none none 1) ⟨0, 0⟩ true) []
        = some (s2, target2) ∧
      s1.m_buffer[0]? = some c1 ∧ s2.m_buffer[0]? = some c2 ∧ c2.alpha ≤ c1.alpha ∧
      c2.alpha < c1.alpha := by
  obtain ⟨s1, t1, s2, t2, c1, c2, hr1, hr2, hb1, hb2, hle, hlt⟩ :=
    render_decay_monotone keepTarget (FeedbackEffect.create none none none 1) ⟨0, 0⟩
      [800] [800, 100] [] (by decide) (by decide) (by decide) (by decide) (by decide)
      (by decide) (by decide) (by decide) (by decide) (by decide) (by decide)
  exact ⟨s1, t1, s2, t2, c1, c2, hr1, hr2, hb1, hb2, hle, hlt (by decide)⟩

/-- C6 (no overshoot, fade to zero). For every state with `decay > 0` in which `key` is
tracked (with a slot of its own, inside the buffer), every run of at least one frame with
no negative duration and no key event in between, and one more such frame: `render`
returns each time; the alpha stored for the key after the run is the value
`configuredAlpha * min (lifetime - age') decay / decay` itself, between 0 and
`configuredAlpha` (so it fits the 8-bit channel without wrap-around); the alpha stored
after the next frame is not greater; and the alpha is exactly 0 once the key has left
the tracked list. -/
theorem render_alpha_no_overshoot (blend : RenderTarget → RenderTarget → RenderTarget)
    (s : FeedbackEffect) (key : Key) (age : Int) (l1 l2 : List KeyPress)
    (frames : List Int) (elapsed : Int) (target : RenderTarget)
    (hs : s.m_presses = l1 ++ ⟨key, age⟩ :: l2)
    (hothers : ∀ q ∈ l1 ++ l2, q.key.index ≠ key.index)
    (hin : key.index < s.m_buffer.length) (hd : 0 < s.m_decay)
    (ha : s.m_color.alpha ≤ 255) (hne : frames ≠ []) (hpos : ∀ e ∈ frames, 0 ≤ e)
    (he : 0 ≤ elapsed) :
    ∃ s1 target1 s2 target2 c1 c2,
      renderFrames blend frames s target = some (s1, target1) ∧
      render blend s1 elapsed target1 = some (s2, target2) ∧
      s1.m_buffer[key.index]? = some c1 ∧ s2.m_buffer[key.index]? = some c2 ∧
      (c1.alpha : Int) = alphaValue s (min (age + frames.sum) (s.m_sustain + s.m_decay)) ∧
      0 ≤ alphaValue s (min (age + frames.sum) (s.m_sustain + s.m_decay)) ∧
      c1.alpha ≤ s.m_color.alpha ∧
      c2.alpha ≤ c1.alpha ∧
      ((∀ p ∈ s1.m_presses, p.key ≠ key) → c1.alpha = 0) := by
  have hlife : lifetime s = s.m_sustain + s.m_decay := rfl
  obtain ⟨s1, t1, hr1, hcfg, hstay, hleave, hbuf⟩ :=
    renderFrames_sole blend key frames s age target ⟨l1, l2, hs, hothers⟩ hd hin hpos
  have hd1 : 0 < s1.m_decay := by rw [hcfg.2.2.1]; exact hd
  have hin1 : key.index < s1.m_buffer.length := by rw [hcfg.2.2.2]; exact hin
  have hcap : min (age + frames.sum) (lifetime s) ≤ lifetime s := by omega
  have e1 := renderColor_alpha s ⟨key, min (age + frames.sum) (lifetime s)⟩ hd ha hcap
  have hnn := alphaValue_nonneg s _ hd hcap
  have hle := alphaValue_le s _ hd hcap
  have hc1 : (renderColor s ⟨key, min (age + frames.sum) (lifetime s)⟩).alpha
      ≤ s.m_color.alpha := by
    have : ((renderColor s ⟨key, min (age + frames.sum) (lifetime s)⟩).alpha : Int)
        ≤ (s.m_color.alpha : Int) := by rw [e1]; exact hle
    exact_mod_cast this
  have hzero : (∀ p ∈ s1.m_presses, p.key ≠ key) →
      (renderColor s ⟨key, min (age + frames.sum) (lifetime s)⟩).alpha = 0 := by
    intro hnot
    have hge : lifetime s ≤ age + frames.sum := by
      by_contra hlt
      obtain ⟨m1, m2, hm, _⟩ := hstay (by omega)
      exact hnot ⟨key, age + frames.sum⟩ (by rw [hm]; simp) rfl
    have hmin : min (age + frames.sum) (lifetime s) = lifetime s := by omega
    have : ((renderColor s ⟨key, min (age + frames.sum) (lifetime s)⟩).alpha : Int) = 0 := by
      rw [e1, hmin]; exact alphaValue_expired s hd
    exact_mod_cast this
  by_cases hlt : age + frames.sum < lifetime s
  · obtain ⟨s2, t2, hr2, _, hbuf2, _, _⟩ :=
      render_sole blend s1 key (age + frames.sum) elapsed t1 (hstay hlt) hd1 hin1
    rw [hcfg.renderColor_eq, hcfg.lifetime_eq] at hbuf2
    have hcap2 : min (age + frames.sum + elapsed) (lifetime s) ≤ lifetime s := by omega
    have e2 := renderColor_alpha s ⟨key, min (age + frames.sum + elapsed) (lifetime s)⟩
      hd ha hcap2
    have hmono := alphaValue_antitone s (min (age + frames.sum) (lifetime s))
      (min (age + frames.sum + elapsed) (lifetime s)) hd (by omega) hcap2
    refine ⟨s1, t1, s2, t2, _, _, hr1, hr2, hbuf hne, hbuf2, e1, hnn, hc1, ?_, hzero⟩
    have : ((renderColor s ⟨key, min (age + frames.sum + elapsed) (lifetime s)⟩).alpha : Int)
        ≤ ((renderColor s ⟨key, min (age + frames.sum) (lifetime s)⟩).alpha : Int) := by
      rw [e1, e2]; exact hmono
    exact_mod_cast this
  · obtain ⟨s2, t2, hr2, _, hbuf2, _⟩ :=
      render_gone blend s1 key elapsed t1 (hleave hne (by omega)) hd1
    refine ⟨s1, t1, s2, t2, _, _, hr1, hr2, hbuf hne, hbuf2.trans (hbuf hne), e1, hnn, hc1,
      le_refl _, hzero⟩

/-- C6, at a concrete input: the default configuration, a key pressed 300ms ago, a frame
of 500ms and a frame of 100ms. -/
theorem render_alpha_no_overshoot_witness :
    ∃ s1 target1 s2 target2 c1 c2,
      renderFrames keepTarget [500] scenarioFading [] = some (s1, target1) ∧
      render keepTarget s1 100 target1 = some (s2, target2) ∧
      s1.m_buffer[0]? = some c1 ∧ s2.m_buffer[0]? = some c2 ∧
      c1.alpha ≤ 255 ∧ c2.alpha ≤ c1.alpha := by
  obtain ⟨s1, t1, s2, t2, c1, c2, hr1, hr2, hb1, hb2, _, _, hle, hmono, _⟩ :=
    render_alpha_no_overshoot keepTarget scenarioFading ⟨0, 0⟩ 300 [] [] [500] 100 []
      rfl (by simp) (by decide) (by decide) (by decide) (by decide) (by decide) (by decide)
  exact ⟨s1, t1, s2, t2, c1, c2, hr1, hr2, hb1, hb2, hle, hmono⟩

/-! ## Service: routing of key events -/

theorem handleKeyEventLoop_none (devNode : String) (key : Int) (press : Bool) (n : Nat)
    (ds : List DeviceManager) (h : ∀ q ∈ ds, devNode ∉ q.eventDevices) :
    handleKeyEventLoop devNode key press n ds = (ds, []) := by
  induction ds generalizing n with
  | nil => rfl
  | cons d ds ih =>
    have hd : devNode ∉ d.eventDevices := h d (List.mem_cons_self _ _)
    have hds : ∀ q ∈ ds, devNode ∉ q.eventDevices :=
      fun q hq => h q (List.mem_cons_of_mem _ hq)
    simp only [handleKeyEventLoop, if_neg hd, ih (n + 1) hds]

theorem handleKeyEventLoop_first (devNode : String) (key : Int) (press : Bool) (n : Nat)
    (l1 : List DeviceManager) (d : DeviceManager) (l2 : List DeviceManager)
    (h1 : ∀ q ∈ l1, devNode ∉ q.eventDevices) (hd : devNode ∈ d.eventDevices) :
    handleKeyEventLoop devNode key press n (l1 ++ d :: l2) =
      (l1 ++ d.call (DMCall.handleKeyEvent key press) :: l2,
        [Event.deviceCall (n + l1.length) (DMCall.handleKeyEvent key press)]) := by
  induction l1 generalizing n with
  | nil => simp [handleKeyEventLoop, hd]
  | cons q l1 ih =>
    have hq : devNode ∉ q.eventDevices := h1 q (List.mem_cons_self _ _)
    have hl1 : ∀ r ∈ l1, devNode ∉ r.eventDevices :=
      fun r hr => h1 r (List.mem_cons_of_mem _ hr)
    have hrec := ih (n + 1) hl1
    rw [show n + 1 + l1.length = n + (l1.length + 1) by omega] at hrec
    show handleKeyEventLoop devNode key press n (q :: (l1 ++ d :: l2)) = _
    simp only [handleKeyEventLoop, if_neg hq, hrec, List.length_cons, List.cons_append]

/-- C7 (routing of key events). The key event goes to the first Device Manager, in list
order, whose `eventDevices` holds `devNode`: that manager receives exactly the one call
`handleKeyEvent(key, press)`, the managers before and after it (also later ones that hold
`devNode`) are unchanged, and nothing else of the Service changes. When no manager holds
`devNode`, the Service is unchanged and no manager receives anything. -/
theorem Service.handleKeyEvent_routing (s : Service) (devNode : String) (key : Int)
    (press : Bool) :
    (∀ (l1 : List DeviceManager) (d : DeviceManager) (l2 : List DeviceManager),
      s.m_devices = l1 ++ d :: l2 → (∀ q ∈ l1, devNode ∉ q.eventDevices) →
      devNode ∈ d.eventDevices →
      s.handleKeyEvent devNode key press =
        { s with
          m_devices :=
            l1 ++ { d with received := d.received ++ [DMCall.handleKeyEvent key press] } :: l2
          m_trace :=
            s.m_trace ++ [Event.deviceCall l1.length (DMCall.handleKeyEvent key press)] }) ∧
    ((∀ q ∈ s.m_devices, devNode ∉ q.eventDevices) → s.handleKeyEvent devNode key press = s) := by
  constructor
  · intro l1 d l2 hs h1 hd
    unfold Service.handleKeyEvent
    rw [hs, handleKeyEventLoop_first devNode key press 0 l1 d l2 h1 hd]
    simp [DeviceManager.call]
  · intro h
    unfold Service.handleKeyEvent
    rw [handleKeyEventLoop_none devNode key press 0 s.m_devices h]
    simp

/-- C7, at a concrete input: two managers hold `/dev/input/event3`; the first one gets the
event, the second one does not; and no manager holds `/dev/input/event9`. -/
theorem Service.handleKeyEvent_routing_witness :
    (scenarioService.handleKeyEvent "/dev/input/event3" 30 true).m_devices =
        [⟨"/sys/a", "S1", ["/dev/input/event3"], [DMCall.handleKeyEvent 30 true]⟩,
          ⟨"/sys/b", "S2", ["/dev/input/event3", "/dev/input/event4"], []⟩] ∧
      scenarioService.handleKeyEvent "/dev/input/event9" 30 true = scenarioService := by
  constructor
  · rw [(Service.handleKeyEvent_routing scenarioService "/dev/input/event3" 30 true).1 []
      ⟨"/sys/a", "S1", ["/dev/input/event3"], []⟩
      [⟨"/sys/b", "S2", ["/dev/input/event3", "/dev/input/event4"], []⟩] rfl (by simp)
      (by simp)]
    rfl
  · exact (Service.handleKeyEvent_routing scenarioService "/dev/input/event9" 30 true).2
      (by simp [scenarioService])

/-! ## Service: context and configuration -/

/-- C8 (`setContext` merges and broadcasts). After `setContext(p)` the shared Context is
`merge(oldContext, p)`; the device list holds the same managers in the same order, each
having received exactly the one call `setContext` with the merged Context; the
Configuration and the other members are unchanged. -/
theorem Service.setContext_merges (s : Service) (p : Context) :
    (s.setContext p).m_context = s.m_context.merge p ∧
    (s.setContext p).m_devices =
      s.m_devices.map (fun d =>
        { d with received := d.received ++ [DMCall.setContext (s.m_context.merge p)] }) ∧
    (s.setContext p).m_configuration = s.m_configuration ∧
    (s.setContext p).m_autoQuit = s.m_autoQuit ∧
    (s.setContext p).m_active = s.m_active ∧
    (s.setContext p).m_fileWatcherSub = s.m_fileWatcherSub ∧
    (s.setContext p).m_trace =
      s.m_trace ++ Event.logged Severity.verbose ::
        (List.range s.m_devices.length).map
          (fun i => Event.deviceCall i (DMCall.setContext (s.m_context.merge p))) := by
  refine ⟨rfl, rfl, rfl, rfl, rfl, rfl, ?_⟩
  simp [Service.setContext, Service.forEachDevice]

/-- C9, refuted: `handleGenericEvent` leaves the shared Context as it is where `setContext`
merges, and the managers receive `handleGenericEvent` with the context as given where
`setContext` gives them `setContext` with the merged Context. -/
theorem Service.handleGenericEvent_not_setContext :
    (scenarioService.handleGenericEvent ⟨[("layout", "us")]⟩).m_context
        = ⟨[("window", "term")]⟩ ∧
      (scenarioService.setContext ⟨[("layout", "us")]⟩).m_context
        = ⟨[("window", "term"), ("layout", "us")]⟩ ∧
      (scenarioService.handleGenericEvent ⟨[("layout", "us")]⟩).m_devices.map
          (fun d => d.received)
        = [[DMCall.handleGenericEvent ⟨[("layout", "us")]⟩],
            [DMCall.handleGenericEvent ⟨[("layout", "us")]⟩]] ∧
      (scenarioService.setContext ⟨[("layout", "us")]⟩).m_devices.map (fun d => d.received)
        = [[DMCall.setContext ⟨[("window", "term"), ("layout", "us")]⟩],
            [DMCall.setContext ⟨[("window", "term"), ("layout", "us")]⟩]] := by
  decide

/-- C9, amended. `handleGenericEvent(c)` forwards `c`, as given, to every Device Manager:
the device list holds the same managers in the same order, each having received exactly
the one call `handleGenericEvent(c)`; the shared Context, the Configuration and the other
members are unchanged (nothing is merged). -/
theorem Service.handleGenericEvent_forwards (s : Service) (c : Context) :
    (s.handleGenericEvent c).m_context = s.m_context ∧
    (s.handleGenericEvent c).m_devices =
      s.m_devices.map (fun d =>
        { d with received := d.received ++ [DMCall.handleGenericEvent c] }) ∧
    (s.handleGenericEvent c).m_configuration = s.m_configuration ∧
    (s.handleGenericEvent c).m_autoQuit = s.m_autoQuit ∧
    (s.handleGenericEvent c).m_active = s.m_active ∧
    (s.handleGenericEvent c).m_fileWatcherSub = s.m_fileWatcherSub ∧
    (s.handleGenericEvent c).m_trace =
      s.m_trace ++ (List.range s.m_devices.length).map
        (fun i => Event.deviceCall i (DMCall.handleGenericEvent c)) :=
  ⟨rfl, rfl, rfl, rfl, rfl, rfl, rfl⟩

theorem Context.merge_empty (ctx : Context) : ctx.merge Context.empty = ctx := rfl

/-- C10 (`setConfiguration` propagation). After `setConfiguration(c)` the held
Configuration is `c`; the device list holds the same managers in the same order, each
having received `setConfiguration(c)` and after it `setContext` with the shared Context,
and nothing else; the shared Context is the one before the call; auto-quit and the active
flag are unchanged. -/
theorem Service.setConfiguration_propagates (s : Service) (c : Configuration) :
    (s.setConfiguration c).m_configuration = some c ∧
    (s.setConfiguration c).m_devices =
      s.m_devices.map (fun d =>
        { d with
          received := d.received ++ [DMCall.setConfiguration c, DMCall.setContext s.m_context] }) ∧
    (s.setConfiguration c).m_context = s.m_context ∧
    (s.setConfiguration c).m_autoQuit = s.m_autoQuit ∧
    (s.setConfiguration c).m_active = s.m_active := by
  unfold Service.setConfiguration
  split <;>
    simp [Service.setContext, Service.forEachDevice, DeviceManager.call, Context.merge_empty]

/-! ## Service: the file watch -/

/-- C11 (`setConfiguration` and the file watch). `setConfiguration(c)` first releases the
subscription held so far, then reconfigures every Device Manager, then re-broadcasts the
Context, and only then, when the path of `c` is not empty, subscribes to that path for
`CloseWrite`. After the call a subscription is held if and only if the path of `c` is not
empty, and the subscription held is the one on the path of `c`. -/
theorem Service.setConfiguration_watch (s : Service) (c : Configuration) :
    (s.setConfiguration c).m_trace =
      s.m_trace ++ [Event.watchReleased s.m_fileWatcherSub] ++
        (List.range s.m_devices.length).map
          (fun i => Event.deviceCall i (DMCall.setConfiguration c)) ++
        [Event.logged Severity.verbose] ++
        (List.range s.m_devices.length).map
          (fun i => Event.deviceCall i (DMCall.setContext s.m_context)) ++
        (if c.path ≠ "" then [Event.watchSubscribed c.path] else []) ∧
    (s.setConfiguration c).m_fileWatcherSub = (if c.path ≠ "" then some c.path else none) ∧
    ((s.setConfiguration c).m_fileWatcherSub.isSome = true ↔ c.path ≠ "") := by
  unfold Service.setConfiguration
  split <;> rename_i hpath <;>
    simp [Service.setContext, Service.forEachDevice, Context.merge_empty, hpath]

/-- C12 (`onConfigurationFileChanged`). With a held configuration `current`: when loading
fails, the method returns a state with the held Configuration, the device list (so what
every manager has received) and the shared Context unchanged; it logs, and it subscribes
again to the path of `current` for `CloseWrite`, dropping the subscription held, if and
only if the event has the `Ignored` flag, the held subscription being left as it is
otherwise. When loading succeeds the result is that of `setConfiguration(loaded)`, after
the log line of the reload. -/
theorem Service.onConfigurationFileChanged_outcomes (s : Service) (event : FileWatcherEvent)
    (current : Configuration) (hcur : s.m_configuration = some current) :
    (∃ s', s.onConfigurationFileChanged event none = some s' ∧
      s'.m_configuration = s.m_configuration ∧ s'.m_devices = s.m_devices ∧
      s'.m_context = s.m_context ∧ s'.m_autoQuit = s.m_autoQuit ∧ s'.m_active = s.m_active ∧
      s'.m_fileWatcherSub =
        (if event.ignored = true then some current.path else s.m_fileWatcherSub) ∧
      s'.m_trace =
        s.m_trace ++ [Event.logged Severity.info, Event.logged Severity.critical] ++
          (if event.ignored = true then
            [Event.watchSubscribed current.path, Event.watchReleased s.m_fileWatcherSub]
          else [])) ∧
    (∀ loaded : Configuration,
      s.onConfigurationFileChanged event (some loaded) =
        some (Service.setConfiguration
          { s with m_trace := s.m_trace ++ [Event.logged Severity.info] } loaded) ∧
      ∃ s', s.onConfigurationFileChanged event (some loaded) = some s' ∧
        s'.m_configuration = (s.setConfiguration loaded).m_configuration ∧
        s'.m_devices = (s.setConfiguration loaded).m_devices ∧
        s'.m_context = (s.setConfiguration loaded).m_context ∧
        s'.m_fileWatcherSub = (s.setConfiguration loaded).m_fileWatcherSub ∧
        s'.m_autoQuit = (s.setConfiguration loaded).m_autoQuit ∧
        s'.m_active = (s.setConfiguration loaded).m_active) := by
  constructor
  · unfold Service.onConfigurationFileChanged
    rw [hcur]
    by_cases hig : event.ignored = true
    · simp [hig]
    · simp [hig]
  · intro loaded
    have hres : s.onConfigurationFileChanged event (some loaded) =
        some (Service.setConfiguration
          { s with m_trace := s.m_trace ++ [Event.logged Severity.info] } loaded) := by
      unfold Service.onConfigurationFileChanged
      rw [hcur]
    refine ⟨hres, _, hres, ?_⟩
    unfold Service.setConfiguration
    split <;>
      simp [Service.setContext, Service.forEachDevice, Context.merge_empty]

/-- C12, at a concrete input: a failed reload on an `Ignored` event, and a reload that
succeeds with a configuration that is not file-backed. -/
theorem Service.onConfigurationFileChanged_outcomes_witness :
    (∃ s', scenarioEmpty.onConfigurationFileChanged ⟨false, true⟩ none = some s' ∧
      s'.m_configuration = scenarioEmpty.m_configuration ∧
      s'.m_fileWatcherSub = some "/etc/keyledsd.conf") ∧
    scenarioEmpty.onConfigurationFileChanged ⟨true, false⟩ (some ⟨"", []⟩) =
      some (Service.setConfiguration
        { scenarioEmpty with
          m_trace := scenarioEmpty.m_trace ++ [Event.logged Severity.info] } ⟨"", []⟩) := by
  have h := Service.onConfigurationFileChanged_outcomes scenarioEmpty
  constructor
  · obtain ⟨s', hr, hc, _, _, _, _, hsub, _⟩ := (h ⟨false, true⟩ ⟨"/etc/keyledsd.conf", []⟩ rfl).1
    exact ⟨s', hr, hc, by rw [hsub]; rfl⟩
  · exact ((h ⟨true, false⟩ ⟨"/etc/keyledsd.conf", []⟩ rfl).2 ⟨"", []⟩).1

/-! ## Service: device notifications -/

/-- C13 (`onDeviceAdded`, open failure). When opening fails with a `Device::error`, the
device list and every other member are unchanged, nothing is announced, and after the
line that reports the notification one line is logged: at error severity if and only if
the code is neither `KEYLEDS_ERROR_HIDNOPP` nor `KEYLEDS_ERROR_HIDVERSION`, at verbose
severity for those two. -/
theorem Service.onDeviceAdded_failure (s : Service) (description : Description)
    (code : ErrorCode) :
    (s.onDeviceAdded description (Except.error code)).m_devices = s.m_devices ∧
    (s.onDeviceAdded description (Except.error code)).m_configuration = s.m_configuration ∧
    (s.onDeviceAdded description (Except.error code)).m_context = s.m_context ∧
    (s.onDeviceAdded description (Except.error code)).m_fileWatcherSub = s.m_fileWatcherSub ∧
    (s.onDeviceAdded description (Except.error code)).m_autoQuit = s.m_autoQuit ∧
    (s.onDeviceAdded description (Except.error code)).m_active = s.m_active ∧
    ∃ severity,
      (s.onDeviceAdded description (Except.error code)).m_trace =
        s.m_trace ++ [Event.logged Severity.verbose, Event.logged severity] ∧
      (severity = Severity.error ↔
        (code ≠ ErrorCode.KEYLEDS_ERROR_HIDNOPP ∧ code ≠ ErrorCode.KEYLEDS_ERROR_HIDVERSION)) ∧
      (severity = Severity.verbose ↔
        (code = ErrorCode.KEYLEDS_ERROR_HIDNOPP ∨ code = ErrorCode.KEYLEDS_ERROR_HIDVERSION)) := by
  by_cases h : code ≠ ErrorCode.KEYLEDS_ERROR_HIDNOPP ∧ code ≠ ErrorCode.KEYLEDS_ERROR_HIDVERSION
  · have hf : s.onDeviceAdded description (Except.error code) =
        { s with
          m_trace := s.m_trace ++
            [Event.logged Severity.verbose, Event.logged Severity.error] } := by
      simp only [Service.onDeviceAdded, if_pos h]
    rw [hf]
    refine ⟨rfl, rfl, rfl, rfl, rfl, rfl, Severity.error, rfl, by simp [h], ?_⟩
    constructor
    · intro hs; cases hs
    · rintro (h1 | h2)
      · exact absurd h1 h.1
      · exact absurd h2 h.2
  · have hf : s.onDeviceAdded description (Except.error code) =
        { s with
          m_trace := s.m_trace ++
            [Event.logged Severity.verbose, Event.logged Severity.verbose] } := by
      simp only [Service.onDeviceAdded, if_neg h]
    rw [hf]
    refine ⟨rfl, rfl, rfl, rfl, rfl, rfl, Severity.verbose, rfl, ?_, ?_⟩
    · constructor
      · intro hs; cases hs
      · intro h'; exact absurd h' h
    · constructor
      · intro _
        by_contra hno
        exact h ⟨fun h1 => hno (Or.inl h1), fun h2 => hno (Or.inr h2)⟩
      · intro _; rfl

/-- C14 (`onDeviceAdded`, success). When opening succeeds, the device list is the previous
list, unchanged, with one new manager at the end: built for the description with the held
Configuration, then given the shared Context, then announced through
`deviceManagerAdded`, then unpaused. Nothing else of the Service changes. -/
theorem Service.onDeviceAdded_success (s : Service) (description : Description)
    (device : Opened) :
    (s.onDeviceAdded description (Except.ok device)).m_devices =
      s.m_devices ++
        [{ sysPath := description.sysPath
           serial := device.serial
           eventDevices := device.eventDevices
           received :=
            [DMCall.create description.devNode s.m_configuration,
              DMCall.setContext s.m_context, DMCall.setPaused false] }] ∧
    (s.onDeviceAdded description (Except.ok device)).m_trace =
      s.m_trace ++
        [Event.logged Severity.verbose,
          Event.deviceCall s.m_devices.length
            (DMCall.create description.devNode s.m_configuration),
          Event.deviceCall s.m_devices.length (DMCall.setContext s.m_context),
          Event.deviceManagerAdded description.sysPath,
          Event.logged Severity.info,
          Event.deviceCall s.m_devices.length (DMCall.setPaused false)] ∧
    (s.onDeviceAdded description (Except.ok device)).m_configuration = s.m_configuration ∧
    (s.onDeviceAdded description (Except.ok device)).m_context = s.m_context ∧
    (s.onDeviceAdded description (Except.ok device)).m_fileWatcherSub = s.m_fileWatcherSub ∧
    (s.onDeviceAdded description (Except.ok device)).m_autoQuit = s.m_autoQuit ∧
    (s.onDeviceAdded description (Except.ok device)).m_active = s.m_active :=
  ⟨rfl, rfl, rfl, rfl, rfl, rfl, rfl⟩

/-! ## Service: removal of a device -/

theorem swapPop_perm (rest : List DeviceManager) : (swapPop rest).Perm rest := by
  unfold swapPop
  cases h : rest.getLast? with
  | none =>
    have : rest = [] := List.getLast?_eq_none_iff.mp h
    rw [this]
  | some last =>
    have hsplit : rest.dropLast ++ [last] = rest := List.dropLast_append_getLast? last h
    have hperm : (last :: rest.dropLast).Perm (rest.dropLast ++ [last]) :=
      (List.perm_append_singleton last rest.dropLast).symm
    rw [hsplit] at hperm
    exact hperm

theorem removeDevice_none (sysPath : String) (ds : List DeviceManager)
    (h : ∀ q ∈ ds, q.sysPath ≠ sysPath) : removeDevice sysPath ds = none := by
  induction ds with
  | nil => rfl
  | cons d ds ih =>
    have hd : d.sysPath ≠ sysPath := h d (List.mem_cons_self _ _)
    have hds : ∀ q ∈ ds, q.sysPath ≠ sysPath := fun q hq => h q (List.mem_cons_of_mem _ hq)
    simp [removeDevice, hd, ih hds]

theorem removeDevice_first (sysPath : String) (l1 : List DeviceManager) (d : DeviceManager)
    (l2 : List DeviceManager) (h1 : ∀ q ∈ l1, q.sysPath ≠ sysPath) (hd : d.sysPath = sysPath) :
    removeDevice sysPath (l1 ++ d :: l2) = some (d, l1 ++ swapPop l2) := by
  induction l1 with
  | nil => simp [removeDevice, hd]
  | cons q l1 ih =>
    have hq : q.sysPath ≠ sysPath := h1 q (List.mem_cons_self _ _)
    have hl1 : ∀ r ∈ l1, r.sysPath ≠ sysPath := fun r hr => h1 r (List.mem_cons_of_mem _ hr)
    simp [removeDevice, hq, ih hl1]

/-- Every result of `removeDevice` comes from the first manager that has the path. -/
theorem removeDevice_some (sysPath : String) (ds : List DeviceManager) (d : DeviceManager)
    (rest : List DeviceManager) (h : removeDevice sysPath ds = some (d, rest)) :
    ∃ l1 l2, ds = l1 ++ d :: l2 ∧ (∀ q ∈ l1, q.sysPath ≠ sysPath) ∧ d.sysPath = sysPath ∧
      rest = l1 ++ swapPop l2 := by
  induction ds generalizing rest with
  | nil => simp [removeDevice] at h
  | cons a ds ih =>
    by_cases ha : a.sysPath = sysPath
    · simp only [removeDevice, if_pos ha, Option.some.injEq, Prod.mk.injEq] at h
      obtain ⟨h1, h2⟩ := h
      subst h1
      exact ⟨[], ds, rfl, by simp, ha, by simp [h2.symm]⟩
    · simp only [removeDevice, if_neg ha, Option.map_eq_some'] at h
      obtain ⟨⟨d', rest'⟩, hrec, hout⟩ := h
      simp only [Prod.mk.injEq] at hout
      obtain ⟨h1, h2⟩ := hout
      subst h1
      obtain ⟨l1, l2, hds, hl1, hd, hrest⟩ := ih rest' hrec
      refine ⟨a :: l1, l2, by simp [hds], ?_, hd, by simp [← h2, hrest]⟩
      intro q hq
      rcases List.mem_cons.mp hq with hqa | hq1
      · rw [hqa]; exact ha
      · exact hl1 q hq1

theorem Service.onDeviceRemoved_of_none (s : Service) (description : Description)
    (h : ∀ q ∈ s.m_devices, q.sysPath ≠ description.sysPath) :
    s.onDeviceRemoved description = s := by
  unfold Service.onDeviceRemoved
  rw [removeDevice_none description.sysPath s.m_devices h]

theorem Service.onDeviceRemoved_of_some (s : Service) (description : Description)
    (d : DeviceManager) (rest : List DeviceManager)
    (h : removeDevice description.sysPath s.m_devices = some (d, rest)) :
    (s.onDeviceRemoved description).m_devices = rest ∧
    (s.onDeviceRemoved description).m_trace =
      s.m_trace ++ [Event.logged Severity.info, Event.deviceManagerRemoved d.sysPath] ++
        (if rest = [] ∧ s.m_autoQuit = true then [Event.quit] else []) ∧
    (s.onDeviceRemoved description).m_configuration = s.m_configuration ∧
    (s.onDeviceRemoved description).m_context = s.m_context ∧
    (s.onDeviceRemoved description).m_fileWatcherSub = s.m_fileWatcherSub ∧
    (s.onDeviceRemoved description).m_autoQuit = s.m_autoQuit ∧
    (s.onDeviceRemoved description).m_active = s.m_active := by
  unfold Service.onDeviceRemoved
  rw [h]
  by_cases hq : rest = [] ∧ s.m_autoQuit = true
  · simp only [if_pos hq]
    exact ⟨trivial, by simp, trivial, trivial, trivial, trivial, trivial⟩
  · simp only [if_neg hq]
    exact ⟨trivial, by simp, trivial, trivial, trivial, trivial, trivial⟩

/-- C15 (`onDeviceRemoved`). When a manager has the system path of the description, the
first such manager in list order, and only that one, leaves the list and is announced
through `deviceManagerRemoved`; the list that remains is a permutation of the other
managers (the last one takes the place of the removed one); the process is asked to quit
if and only if no manager remains and auto-quit is set; the other members are unchanged.
When no manager has the system path, the Service is unchanged: nothing is announced and
quit is not requested. -/
theorem Service.onDeviceRemoved_removes (s : Service) (description : Description) :
    (∀ (l1 : List DeviceManager) (d : DeviceManager) (l2 : List DeviceManager),
      s.m_devices = l1 ++ d :: l2 → (∀ q ∈ l1, q.sysPath ≠ description.sysPath) →
      d.sysPath = description.sysPath →
      (s.onDeviceRemoved description).m_devices = l1 ++ swapPop l2 ∧
      ((s.onDeviceRemoved description).m_devices).Perm (l1 ++ l2) ∧
      (s.onDeviceRemoved description).m_trace =
        s.m_trace ++ [Event.logged Severity.info, Event.deviceManagerRemoved d.sysPath] ++
          (if l1 ++ l2 = [] ∧ s.m_autoQuit = true then [Event.quit] else []) ∧
      (s.onDeviceRemoved description).m_configuration = s.m_configuration ∧
      (s.onDeviceRemoved description).m_context = s.m_context ∧
      (s.onDeviceRemoved description).m_fileWatcherSub = s.m_fileWatcherSub ∧
      (s.onDeviceRemoved description).m_autoQuit = s.m_autoQuit ∧
      (s.onDeviceRemoved description).m_active = s.m_active) ∧
    ((∀ q ∈ s.m_devices, q.sysPath ≠ description.sysPath) →
      s.onDeviceRemoved description = s) := by
  constructor
  · intro l1 d l2 hs h1 hd
    have hrem : removeDevice description.sysPath s.m_devices = some (d, l1 ++ swapPop l2) := by
      rw [hs]; exact removeDevice_first description.sysPath l1 d l2 h1 hd
    obtain ⟨hdev, htrace, hrest⟩ := Service.onDeviceRemoved_of_some s description d _ hrem
    have hperm : (l1 ++ swapPop l2).Perm (l1 ++ l2) :=
      List.Perm.append_left l1 (swapPop_perm l2)
    have hnil : (l1 ++ swapPop l2 = []) ↔ (l1 ++ l2 = []) := by
      constructor
      · intro h; rw [h] at hperm; exact List.Perm.nil_eq hperm |>.symm
      · intro h; rw [h] at hperm; exact List.Perm.eq_nil hperm
    refine ⟨hdev, by rw [hdev]; exact hperm, ?_, hrest⟩
    rw [htrace]
    by_cases hq : l1 ++ l2 = [] ∧ s.m_autoQuit = true
    · rw [if_pos hq, if_pos ⟨hnil.mpr hq.1, hq.2⟩]
    · rw [if_neg hq, if_neg (fun h => hq ⟨hnil.mp h.1, h.2⟩)]
  · exact Service.onDeviceRemoved_of_none s description

/-- C15, at a concrete input: the first of the two managers of the path `/sys/a` leaves,
and no manager has the path `/sys/none`. -/
theorem Service.onDeviceRemoved_removes_witness :
    (scenarioService.onDeviceRemoved ⟨"/dev/a", "/sys/a"⟩).m_devices =
        [] ++ swapPop [⟨"/sys/b", "S2", ["/dev/input/event3", "/dev/input/event4"], []⟩] ∧
      scenarioService.onDeviceRemoved ⟨"/dev/none", "/sys/none"⟩ = scenarioService :=
  ⟨((Service.onDeviceRemoved_removes scenarioService ⟨"/dev/a", "/sys/a"⟩).1 []
      ⟨"/sys/a", "S1", ["/dev/input/event3"], []⟩
      [⟨"/sys/b", "S2", ["/dev/input/event3", "/dev/input/event4"], []⟩] rfl (by simp) rfl).1,
    (Service.onDeviceRemoved_removes scenarioService ⟨"/dev/none", "/sys/none"⟩).2
      (by simp [scenarioService])⟩

/-! ## Service: a removal notified twice -/

theorem Service.onDeviceAdded_error_devices (s : Service) (description : Description)
    (code : ErrorCode) :
    (s.onDeviceAdded description (Except.error code)).m_devices = s.m_devices := by
  simp only [Service.onDeviceAdded]
  split <;> rfl

theorem removeDevice_none_absent (sysPath : String) (ds : List DeviceManager)
    (h : removeDevice sysPath ds = none) : ∀ q ∈ ds, q.sysPath ≠ sysPath := by
  induction ds with
  | nil => intro q hq; exact absurd hq (List.not_mem_nil _)
  | cons a t ih =>
    by_cases ha : a.sysPath = sysPath
    · simp [removeDevice, ha] at h
    · simp only [removeDevice, if_neg ha, Option.map_eq_none'] at h
      intro q hq
      rcases List.mem_cons.mp hq with hqa | hqt
      · rw [hqa]; exact ha
      · exact ih h q hqt

/-- With no add notification for a system path that is held, no two managers share a
system path. -/
theorem Service.ReachableDistinct.nodup {s : Service} (h : Service.ReachableDistinct s) :
    (s.m_devices.map (fun d => d.sysPath)).Nodup := by
  induction h with
  | init s hs => rw [hs]; exact List.nodup_nil
  | added description opened _ hfresh ih =>
    cases opened with
    | error code => rw [Service.onDeviceAdded_error_devices]; exact ih
    | ok device =>
      show (List.map (fun d : DeviceManager => d.sysPath) (_ ++ [_])).Nodup
      rw [List.map_append, List.nodup_append]
      refine ⟨ih, by simp, ?_⟩
      intro x hx hx'
      simp only [List.map_cons, List.map_nil, List.mem_singleton] at hx'
      obtain ⟨d, hd, hdx⟩ := List.mem_map.mp hx
      exact hfresh d hd (by rw [hdx, hx'])
  | @removed s0 description _ ih =>
    cases hrem : removeDevice description.sysPath s0.m_devices with
    | none =>
      have : s0.onDeviceRemoved description = s0 := by
        unfold Service.onDeviceRemoved; rw [hrem]
      rw [this]; exact ih
    | some out =>
      obtain ⟨d, rest⟩ := out
      obtain ⟨l1, l2, hds, _, _, hrest⟩ := removeDevice_some _ _ d rest hrem
      rw [(Service.onDeviceRemoved_of_some s0 description d rest hrem).1, hrest]
      have hperm : (l1 ++ swapPop l2).Perm (l1 ++ l2) :=
        List.Perm.append_left l1 (swapPop_perm l2)
      rw [(hperm.map (fun d => d.sysPath)).nodup_iff]
      rw [hds] at ih
      have hsub : (l1 ++ l2).Sublist (l1 ++ d :: l2) :=
        List.Sublist.append_left (List.sublist_cons_self d l2) l1
      exact ih.sublist (hsub.map (fun d => d.sysPath))

theorem Service.onDeviceRemoved_absent (s : Service) (description : Description)
    (hnodup : (s.m_devices.map (fun d => d.sysPath)).Nodup) :
    ∀ q ∈ (s.onDeviceRemoved description).m_devices, q.sysPath ≠ description.sysPath := by
  cases hrem : removeDevice description.sysPath s.m_devices with
  | none =>
    have hsame : s.onDeviceRemoved description = s := by
      unfold Service.onDeviceRemoved; rw [hrem]
    rw [hsame]
    exact removeDevice_none_absent _ _ hrem
  | some out =>
    obtain ⟨d, rest⟩ := out
    obtain ⟨l1, l2, hds, _, hd, hrest⟩ := removeDevice_some _ _ d rest hrem
    rw [(Service.onDeviceRemoved_of_some s description d rest hrem).1, hrest]
    rw [hds, List.map_append, List.map_cons, List.nodup_middle, List.nodup_cons,
      ← List.map_append] at hnodup
    have hperm : (l1 ++ swapPop l2).Perm (l1 ++ l2) :=
      List.Perm.append_left l1 (swapPop_perm l2)
    intro q hq hqs
    apply hnodup.1
    rw [hd, ← hqs]
    exact List.mem_map.mpr ⟨q, hperm.subset hq, rfl⟩

/-- C16, refuted: two add notifications for the same description, both opened, lead to
a state with two managers of the same system path; the first removal leaves one of them,
and the second removal finds it, removes it, announces it and, auto-quit being set, asks
the process to quit. -/
theorem Service.onDeviceRemoved_twice_differs :
    Service.Reachable scenarioTwice ∧
      (scenarioTwice.onDeviceRemoved scenarioDescription).m_devices.map (fun d => d.sysPath)
        = ["/sys/x1"] ∧
      ((scenarioTwice.onDeviceRemoved scenarioDescription).onDeviceRemoved
          scenarioDescription).m_devices = [] ∧
      ((scenarioTwice.onDeviceRemoved scenarioDescription).onDeviceRemoved
          scenarioDescription).m_trace =
        (scenarioTwice.onDeviceRemoved scenarioDescription).m_trace ++
          [Event.logged Severity.info, Event.deviceManagerRemoved "/sys/x1", Event.quit] :=
  ⟨Service.Reachable.added _ _ (Service.Reachable.added _ _ (Service.Reachable.init _ rfl)),
    by decide, by decide, by decide⟩

/-- C16, amended. In every Service state reachable through `onDeviceAdded` and
`onDeviceRemoved` notifications in which no device is announced as added while a manager
of its system path is held, and for every description: after one `onDeviceRemoved` no
manager has the system path of the description, and a second `onDeviceRemoved` leaves the
Service as the first one left it (same device list, nothing announced, no quit
requested). -/
theorem Service.onDeviceRemoved_idempotent (s : Service) (description : Description)
    (h : Service.ReachableDistinct s) :
    (∀ q ∈ (s.onDeviceRemoved description).m_devices, q.sysPath ≠ description.sysPath) ∧
    (s.onDeviceRemoved description).onDeviceRemoved description =
      s.onDeviceRemoved description := by
  have habsent := Service.onDeviceRemoved_absent s description h.nodup
  exact ⟨habsent, Service.onDeviceRemoved_of_none _ description habsent⟩

/-- C16, amended, at a concrete input: one device added, then removed twice. -/
theorem Service.onDeviceRemoved_idempotent_witness :
    ((scenarioEmpty.onDeviceAdded scenarioDescription
        (Except.ok scenarioOpened)).onDeviceRemoved scenarioDescription).onDeviceRemoved
        scenarioDescription =
      (scenarioEmpty.onDeviceAdded scenarioDescription
        (Except.ok scenarioOpened)).onDeviceRemoved scenarioDescription :=
  (Service.onDeviceRemoved_idempotent _ scenarioDescription
    (Service.ReachableDistinct.added scenarioDescription (Except.ok scenarioOpened)
      (Service.ReachableDistinct.init scenarioEmpty rfl)
      (by intro d hd; exact absurd hd (List.not_mem_nil _)))).2

/-! ## Feedback effect: invariants of the reachable states -/

theorem render_some_eq (blendFn : RenderTarget → RenderTarget → RenderTarget)
    (s : FeedbackEffect) (elapsed : Int) (target : RenderTarget) (s' : FeedbackEffect)
    (target' : RenderTarget) (h : render blendFn s elapsed target = some (s', target')) :
    s' = { s with
            m_buffer := (renderLoop s elapsed s.m_presses s.m_buffer).2
            m_presses := (s.m_presses.map (renderKeyPress s elapsed)).filter
              (fun p => decide (p.age < lifetime s)) } ∧
      target' = blendFn target (renderLoop s elapsed s.m_presses s.m_buffer).2 := by
  unfold render at h
  split at h
  · cases h
  · simp only [renderLoop_fst, ge_iff_le, not_le, Option.some.injEq, Prod.mk.injEq] at h
    exact ⟨h.1.symm, h.2.symm⟩

theorem resetAge_none_absent (key : Key) (ps : List KeyPress) (h : resetAge key ps = none) :
    ∀ q ∈ ps, q.key ≠ key := by
  induction ps with
  | nil => intro q hq; exact absurd hq (List.not_mem_nil _)
  | cons a t ih =>
    by_cases ha : a.key = key
    · simp [resetAge, ha] at h
    · simp only [resetAge, if_neg ha, Option.map_eq_none'] at h
      intro q hq
      rcases List.mem_cons.mp hq with hqa | hqt
      · rw [hqa]; exact ha
      · exact ih h q hqt

theorem resetAge_some_keys (key : Key) (ps ps' : List KeyPress)
    (h : resetAge key ps = some ps') :
    ps'.map (fun p => p.key) = ps.map (fun p => p.key) := by
  induction ps generalizing ps' with
  | nil => simp [resetAge] at h
  | cons a t ih =>
    by_cases ha : a.key = key
    · simp only [resetAge, if_pos ha, Option.some.injEq] at h
      rw [← h]; rfl
    · simp only [resetAge, if_neg ha, Option.map_eq_some'] at h
      obtain ⟨t', ht, hps⟩ := h
      rw [← hps, List.map_cons, List.map_cons, ih t' ht]

theorem resetAge_some_ages (key : Key) (ps ps' : List KeyPress)
    (h : resetAge key ps = some ps') : ∀ p ∈ ps', p.age = 0 ∨ p ∈ ps := by
  induction ps generalizing ps' with
  | nil => simp [resetAge] at h
  | cons a t ih =>
    by_cases ha : a.key = key
    · simp only [resetAge, if_pos ha, Option.some.injEq] at h
      rw [← h]
      intro p hp
      rcases List.mem_cons.mp hp with hpa | hpt
      · left; rw [hpa]
      · right; exact List.mem_cons_of_mem _ hpt
    · simp only [resetAge, if_neg ha, Option.map_eq_some'] at h
      obtain ⟨t', ht, hps⟩ := h
      rw [← hps]
      intro p hp
      rcases List.mem_cons.mp hp with hpa | hpt
      · right; rw [hpa]; exact List.mem_cons_self _ _
      · rcases ih t' ht p hpt with h0 | hmem
        · left; exact h0
        · right; exact List.mem_cons_of_mem _ hmem

/-- In every reachable state the tracked keys are pairwise distinct. -/
theorem Reachable.keys_nodup {blendFn : RenderTarget → RenderTarget → RenderTarget}
    {allowed : Int → Prop} {s : FeedbackEffect} (h : Reachable blendFn allowed s) :
    (s.m_presses.map (fun p => p.key)).Nodup := by
  induction h with
  | create color sustain decay size => exact List.nodup_nil
  | @handleKeyEvent s0 key pressed _ ih =>
    unfold Keyleds.handleKeyEvent
    cases hr : resetAge key s0.m_presses with
    | some ps' =>
      show (ps'.map (fun p => p.key)).Nodup
      rw [resetAge_some_keys key _ ps' hr]; exact ih
    | none =>
      show ((s0.m_presses ++ [(⟨key, 0⟩ : KeyPress)]).map (fun p : KeyPress => p.key)).Nodup
      rw [List.map_append, List.nodup_append]
      refine ⟨ih, by simp, ?_⟩
      intro x hx hx'
      simp only [List.map_cons, List.map_nil, List.mem_singleton] at hx'
      obtain ⟨q, hq, hqx⟩ := List.mem_map.mp hx
      exact resetAge_none_absent key _ hr q hq (by rw [hqx, hx'])
  | @render s0 s1 elapsed target target' _ _ hr ih =>
    obtain ⟨hs1, _⟩ := render_some_eq blendFn s0 elapsed target s1 target' hr
    rw [hs1]
    show (List.map (fun p : KeyPress => p.key)
      (List.filter _ (s0.m_presses.map (renderKeyPress s0 elapsed)))).Nodup
    have hsub := (List.filter_sublist (p := fun p => decide (p.age < lifetime s0))
      (s0.m_presses.map (renderKeyPress s0 elapsed))).map (fun p : KeyPress => p.key)
    have hkeys : (s0.m_presses.map (renderKeyPress s0 elapsed)).map (fun p : KeyPress => p.key)
        = s0.m_presses.map (fun p => p.key) := by
      rw [List.map_map]; rfl
    rw [hkeys] at hsub
    exact ih.sublist hsub

/-- With no frame of negative duration, no reachable state tracks a negative age. -/
theorem Reachable.ages_nonneg {blendFn : RenderTarget → RenderTarget → RenderTarget}
    {s : FeedbackEffect} (h : Reachable blendFn (fun e => 0 ≤ e) s) :
    ∀ p ∈ s.m_presses, 0 ≤ p.age := by
  induction h with
  | create color sustain decay size => intro p hp; exact absurd hp (List.not_mem_nil _)
  | @handleKeyEvent s0 key pressed _ ih =>
    unfold Keyleds.handleKeyEvent
    cases hr : resetAge key s0.m_presses with
    | some ps' =>
      intro p hp
      rcases resetAge_some_ages key _ ps' hr p hp with h0 | hmem
      · rw [h0]
      · exact ih p hmem
    | none =>
      intro p hp
      rcases List.mem_append.mp hp with hold | hnew
      · exact ih p hold
      · rw [List.mem_singleton.mp hnew]
  | @render s0 s1 elapsed target target' _ hel hr ih =>
    obtain ⟨hs1, _⟩ := render_some_eq blendFn s0 elapsed target s1 target' hr
    rw [hs1]
    intro p hp
    have hp' : p ∈ List.filter (fun p => decide (p.age < lifetime s0))
        (s0.m_presses.map (renderKeyPress s0 elapsed)) := hp
    rw [List.mem_filter, List.mem_map] at hp'
    obtain ⟨⟨q, hq, hqp⟩, _⟩ := hp'
    have hq0 := ih q hq
    have hage := renderKeyPress_age s0 elapsed q
    rw [hqp] at hage
    have hel' : (0 : Int) ≤ elapsed := hel
    have hlt : p.age < lifetime s0 := by
      have := (List.mem_filter.mp hp).2
      simpa using this
    omega

/-- C18 (tracked-list invariant). In every state reachable from construction by calls of
`handleKeyEvent` and calls of `render` that return, no key is in more than one tracked
record. When no frame has a negative duration, every record left after a `render`
satisfies `0 <= age < sustain + decay` (this holds whatever the sign of
`sustain + decay`). -/
theorem reachable_tracked_invariant (blendFn : RenderTarget → RenderTarget → RenderTarget) :
    (∀ s : FeedbackEffect, Reachable blendFn (fun _ => True) s →
      (s.m_presses.map (fun p => p.key)).Nodup) ∧
    (∀ (s : FeedbackEffect) (elapsed : Int) (target : RenderTarget) (s' : FeedbackEffect)
        (target' : RenderTarget),
      Reachable blendFn (fun e => 0 ≤ e) s → 0 ≤ elapsed →
      render blendFn s elapsed target = some (s', target') →
      ∀ p ∈ s'.m_presses, 0 ≤ p.age ∧ p.age < s'.m_sustain + s'.m_decay) := by
  constructor
  · intro s h
    exact h.keys_nodup
  · intro s elapsed target s' target' h hel hr p hp
    have hreach : Reachable blendFn (fun e => 0 ≤ e) s' :=
      Reachable.render elapsed target target' h hel hr
    refine ⟨hreach.ages_nonneg p hp, ?_⟩
    obtain ⟨hs', _⟩ := render_some_eq blendFn s elapsed target s' target' hr
    rw [hs'] at hp ⊢
    have hlt := (List.mem_filter.mp hp).2
    have : p.age < lifetime s := by simpa using hlt
    exact this

/-- C18, at a concrete input: the default configuration, one key pressed, one frame of
16ms. -/
theorem reachable_tracked_invariant_witness :
    (scenarioDefault.m_presses.map (fun p => p.key)).Nodup ∧
      ∀ p ∈ [(⟨⟨0, 0⟩, 16⟩ : KeyPress)], 0 ≤ p.age ∧ p.age < 750 + 500 :=
  ⟨(reachable_tracked_invariant keepTarget).1 scenarioDefault
      (Reachable.handleKeyEvent ⟨0, 0⟩ true (Reachable.create none none none 1)),
    (reachable_tracked_invariant keepTarget).2 scenarioDefault 16 []
      ⟨white, 750, 500, [white], [⟨⟨0, 0⟩, 16⟩]⟩ []
      (Reachable.handleKeyEvent ⟨0, 0⟩ true (Reachable.create none none none 1))
      (by decide) (by decide)⟩

/-! ## Feedback effect: the buffer outside the tracked keys -/

/-- The last record, in list order, that addresses a given slot. -/
theorem last_record_of_slot (i : Nat) (ps : List KeyPress)
    (h : ∃ p ∈ ps, p.key.index = i) :
    ∃ l1 p l2, ps = l1 ++ p :: l2 ∧ p.key.index = i ∧ ∀ q ∈ l2, q.key.index ≠ i := by
  induction ps with
  | nil => obtain ⟨p, hp, _⟩ := h; exact absurd hp (List.not_mem_nil _)
  | cons a t ih =>
    by_cases ht : ∃ p ∈ t, p.key.index = i
    · obtain ⟨l1, p, l2, hsplit, hp, hl2⟩ := ih ht
      exact ⟨a :: l1, p, l2, by rw [hsplit]; rfl, hp, hl2⟩
    · obtain ⟨p, hp, hpi⟩ := h
      rcases List.mem_cons.mp hp with hpa | hpt
      · refine ⟨[], a, t, rfl, by rw [← hpa]; exact hpi, ?_⟩
        intro q hq hqi
        exact ht ⟨q, hq, hqi⟩
      · exact absurd ⟨p, hpt, hpi⟩ ht

theorem create_bufferClean (color : Option RGBAColor) (sustain decay : Option Int)
    (size : Nat) : BufferClean (FeedbackEffect.create color sustain decay size) := by
  intro i c hc _
  have hmem : c ∈ List.replicate size transparent := List.getElem?_mem hc
  rw [List.eq_of_mem_replicate hmem]
  rfl

theorem handleKeyEvent_bufferClean (s : FeedbackEffect) (key : Key) (pressed : Bool)
    (h : BufferClean s) : BufferClean (handleKeyEvent s key pressed) := by
  intro i c hc hfree
  rw [(handleKeyEvent_fields s key pressed).2.2.2] at hc
  apply h i c hc
  intro p hp hpi
  have hkeys : p.key ∈ (handleKeyEvent s key pressed).m_presses.map (fun q => q.key) := by
    unfold handleKeyEvent
    cases hr : resetAge key s.m_presses with
    | some ps' =>
      show p.key ∈ ps'.map (fun q => q.key)
      rw [resetAge_some_keys key _ ps' hr]
      exact List.mem_map.mpr ⟨p, hp, rfl⟩
    | none =>
      show p.key ∈ (s.m_presses ++ [(⟨key, 0⟩ : KeyPress)]).map (fun q : KeyPress => q.key)
      exact List.mem_map.mpr ⟨p, List.mem_append_left _ hp, rfl⟩
  obtain ⟨q, hq, hqk⟩ := List.mem_map.mp hkeys
  exact hfree q hq (by rw [hqk]; exact hpi)

/-- A frame keeps the buffer clean: a slot that no record addresses any more was either
addressed by none before, or written last by a record that the frame evicts, at alpha 0. -/
theorem render_bufferClean (blendFn : RenderTarget → RenderTarget → RenderTarget)
    (s : FeedbackEffect) (elapsed : Int) (target : RenderTarget) (s' : FeedbackEffect)
    (target' : RenderTarget) (hr : render blendFn s elapsed target = some (s', target'))
    (hd : 0 < s.m_decay) (h : BufferClean s) : BufferClean s' := by
  obtain ⟨hs', _⟩ := render_some_eq blendFn s elapsed target s' target' hr
  intro i c hc hfree
  rw [hs'] at hc hfree
  have hc' : (renderLoop s elapsed s.m_presses s.m_buffer).2[i]? = some c := hc
  have hfree' : ∀ p ∈ List.filter (fun p => decide (p.age < lifetime s))
      (s.m_presses.map (renderKeyPress s elapsed)), p.key.index ≠ i := hfree
  by_cases hany : ∃ p ∈ s.m_presses, p.key.index = i
  · obtain ⟨l1, p, l2, hsplit, hpi, hl2⟩ := last_record_of_slot i s.m_presses hany
    have hin : p.key.index < s.m_buffer.length := by
      have hlen := renderLoop_length s elapsed s.m_presses s.m_buffer
      have : i < (renderLoop s elapsed s.m_presses s.m_buffer).2.length := by
        by_contra hge
        rw [List.getElem?_eq_none (Nat.le_of_not_lt hge)] at hc'
        cases hc'
      rw [hpi, ← hlen]; exact this
    have hwritten := renderLoop_written s elapsed l1 p l2 s.m_buffer
      (fun q hq => by rw [hpi]; exact hl2 q hq) hin
    rw [← hsplit, hpi, hc'] at hwritten
    have hc_eq : c = renderColor s (renderKeyPress s elapsed p) := Option.some.inj hwritten
    have hevicted : ¬ ((renderKeyPress s elapsed p).age < lifetime s) := by
      intro hlt
      apply hfree' (renderKeyPress s elapsed p)
      · rw [List.mem_filter]
        refine ⟨List.mem_map.mpr ⟨p, by rw [hsplit]; simp, rfl⟩, by simpa using hlt⟩
      · rw [renderKeyPress_key]; exact hpi
    have hage : (renderKeyPress s elapsed p).age = lifetime s := by
      have := renderKeyPress_age_le s elapsed p
      omega
    rw [hc_eq]
    show channel_type (alphaValue s (renderKeyPress s elapsed p).age) = 0
    rw [hage, alphaValue_expired s hd]
    rfl
  · have hnone : ∀ q ∈ s.m_presses, q.key.index ≠ i := fun q hq hqi => hany ⟨q, hq, hqi⟩
    rw [renderLoop_untouched s elapsed i s.m_presses s.m_buffer hnone] at hc'
    exact h i c hc' hnone

/-- In every reachable state of an effect with `decay > 0` the buffer is clean. -/
theorem Reachable.bufferClean {blendFn : RenderTarget → RenderTarget → RenderTarget}
    {allowed : Int → Prop} {s : FeedbackEffect} (h : Reachable blendFn allowed s) :
    0 < s.m_decay → BufferClean s := by
  induction h with
  | create color sustain decay size => intro _; exact create_bufferClean color sustain decay size
  | @handleKeyEvent s0 key pressed _ ih =>
    intro hd
    rw [(handleKeyEvent_fields s0 key pressed).2.2.1] at hd
    exact handleKeyEvent_bufferClean s0 key pressed (ih hd)
  | @render s0 s1 elapsed target target' _ _ hr ih =>
    intro hd
    have hcfg : s1.m_decay = s0.m_decay := by
      rw [(render_some_eq blendFn s0 elapsed target s1 target' hr).1]
    rw [hcfg] at hd
    exact render_bufferClean blendFn s0 elapsed target s1 target' hr hd (ih hd)

/-! ## Feedback effect: what reaches the target -/

theorem blendChannel_zero (src dst : Nat) : blendChannel 0 src dst = dst := by
  unfold blendChannel
  simp

theorem blendColor_of_alpha_zero (dst src : RGBAColor) (h : src.alpha = 0) :
    blendColor dst src = dst := by
  unfold blendColor
  rw [h, blendChannel_zero, blendChannel_zero, blendChannel_zero, blendChannel_zero]

/-- Alpha-over blending leaves a target slot as it is where the buffer has alpha 0. -/
theorem blend_of_alpha_zero (target buffer : RenderTarget) (i : Nat) (d c : RGBAColor)
    (ht : target[i]? = some d) (hb : buffer[i]? = some c) (hc : c.alpha = 0) :
    (blend target buffer)[i]? = some d := by
  unfold blend
  rw [List.getElem?_zipWith, ht, hb]
  exact congrArg some (blendColor_of_alpha_zero d c hc)

/-- After a frame from a reachable state, a blend that leaves a target slot as it is where
the buffer has alpha 0 leaves the target as it was at every index without tracked key. -/
theorem render_target_untracked (blendFn : RenderTarget → RenderTarget → RenderTarget)
    (hblend : ∀ (t b : RenderTarget) (i : Nat) (d c : RGBAColor),
      t[i]? = some d → b[i]? = some c → c.alpha = 0 → (blendFn t b)[i]? = some d)
    (s : FeedbackEffect) (elapsed : Int) (target : RenderTarget) (s' : FeedbackEffect)
    (target' : RenderTarget) (hreach : Reachable blendFn (fun _ => True) s)
    (hd : 0 < s.m_decay) (hr : render blendFn s elapsed target = some (s', target'))
    (i : Nat) (d : RGBAColor) (ht : target[i]? = some d) (hi : i < s.m_buffer.length)
    (hfree : ∀ p ∈ s'.m_presses, p.key.index ≠ i) : target'[i]? = some d := by
  have hclean : BufferClean s' :=
    render_bufferClean blendFn s elapsed target s' target' hr hd (hreach.bufferClean hd)
  obtain ⟨hs', ht'⟩ := render_some_eq blendFn s elapsed target s' target' hr
  have hbuf : s'.m_buffer = (renderLoop s elapsed s.m_presses s.m_buffer).2 := by rw [hs']
  have hlen : i < s'.m_buffer.length := by
    rw [hbuf, renderLoop_length]; exact hi
  have hget : s'.m_buffer[i]? = some (s'.m_buffer[i]) := List.getElem?_eq_getElem hlen
  rw [ht', ← hbuf]
  exact hblend target s'.m_buffer i d _ ht hget (hclean i _ hget hfree)

/-- C17, refuted: with alpha-over blending, `render` on an effect without tracked key
leaves an opaque target slot opaque and a transparent one transparent, so two targets do
not end with identical contents, and a slot without tracked key is not cleared. -/
theorem render_target_not_cleared :
    (render blend (FeedbackEffect.create none none none 1) 16 [⟨10, 20, 30, 255⟩]).map
        (fun out => out.2) = some [⟨10, 20, 30, 255⟩] ∧
      (render blend (FeedbackEffect.create none none none 1) 16 [transparent]).map
        (fun out => out.2) = some [transparent] ∧
      (FeedbackEffect.create none none none 1).m_presses = [] := by
  decide

/-- C17, amended. `render` does not clear the target: when it returns, the target it
leaves is the previous target with the buffer of the effect blended onto it. With
alpha-over blending, from every reachable state with `decay > 0`, the target keeps the
colour it held before the call at every index, inside the buffer, that has no tracked
key after the call. -/
theorem render_blends_onto_target :
    (∀ (blendFn : RenderTarget → RenderTarget → RenderTarget) (s : FeedbackEffect)
        (elapsed : Int) (target : RenderTarget) (s' : FeedbackEffect) (target' : RenderTarget),
      render blendFn s elapsed target = some (s', target') →
      target' = blendFn target s'.m_buffer) ∧
    (∀ (s : FeedbackEffect) (elapsed : Int) (target : RenderTarget) (s' : FeedbackEffect)
        (target' : RenderTarget),
      Reachable blend (fun _ => True) s → 0 < s.m_decay →
      render blend s elapsed target = some (s', target') →
      ∀ (i : Nat) (d : RGBAColor), target[i]? = some d → i < s.m_buffer.length →
        (∀ p ∈ s'.m_presses, p.key.index ≠ i) → target'[i]? = some d) := by
  constructor
  · intro blendFn s elapsed target s' target' hr
    obtain ⟨hs', ht'⟩ := render_some_eq blendFn s elapsed target s' target' hr
    rw [ht', hs']
  · intro s elapsed target s' target' hreach hd hr i d ht hi hfree
    exact render_target_untracked blend blend_of_alpha_zero s elapsed target s' target'
      hreach hd hr i d ht hi hfree

/-- C17, amended, at a concrete input: the effect whose key was evicted, drawn onto an
opaque target. -/
theorem render_blends_onto_target_witness :
    [(⟨10, 20, 30, 255⟩ : RGBAColor)] = blend [⟨10, 20, 30, 255⟩] scenarioEvicted.m_buffer ∧
      [(⟨10, 20, 30, 255⟩ : RGBAColor)][0]? = some ⟨10, 20, 30, 255⟩ :=
  ⟨render_blends_onto_target.1 blend scenarioEvicted 16 [⟨10, 20, 30, 255⟩] scenarioEvicted
      [⟨10, 20, 30, 255⟩] (by decide),
    render_blends_onto_target.2 scenarioEvicted 16 [⟨10, 20, 30, 255⟩] scenarioEvicted
      [⟨10, 20, 30, 255⟩]
      (Reachable.render 2000 [transparent] [transparent]
        (Reachable.handleKeyEvent ⟨0, 0⟩ true (Reachable.create none none none 1)) trivial
        (by decide))
      (by decide) (by decide) 0 ⟨10, 20, 30, 255⟩ (by decide) (by decide)
      (by intro p hp; exact absurd hp (List.not_mem_nil _))⟩

/-- C19 (buffer invariant). `render` never clears the buffer of the effect: a slot that
no tracked record addresses keeps its colour through the call. Yet in every state
reachable from construction by calls of `handleKeyEvent` and calls of `render` that
return, with `decay > 0`, every buffer slot whose index has no tracked record holds
alpha 0: an evicted key is left with the alpha 0 written by the frame that evicts it. So
a blend that leaves a target slot as it is where the buffer has alpha 0 changes the
target at the indices of tracked keys only. -/
theorem render_buffer_invariant (blendFn : RenderTarget → RenderTarget → RenderTarget) :
    (∀ s : FeedbackEffect, Reachable blendFn (fun _ => True) s → 0 < s.m_decay →
      ∀ (i : Nat) (c : RGBAColor), s.m_buffer[i]? = some c →
        (∀ p ∈ s.m_presses, p.key.index ≠ i) → c.alpha = 0) ∧
    (∀ (s : FeedbackEffect) (elapsed : Int) (target : RenderTarget) (s' : FeedbackEffect)
        (target' : RenderTarget),
      render blendFn s elapsed target = some (s', target') →
      ∀ i : Nat, (∀ p ∈ s.m_presses, p.key.index ≠ i) → s'.m_buffer[i]? = s.m_buffer[i]?) ∧
    ((∀ (t b : RenderTarget) (i : Nat) (d c : RGBAColor),
        t[i]? = some d → b[i]? = some c → c.alpha = 0 → (blendFn t b)[i]? = some d) →
      ∀ (s : FeedbackEffect) (elapsed : Int) (target : RenderTarget) (s' : FeedbackEffect)
        (target' : RenderTarget),
      Reachable blendFn (fun _ => True) s → 0 < s.m_decay →
      render blendFn s elapsed target = some (s', target') →
      ∀ (i : Nat) (d : RGBAColor), target[i]? = some d → i < s.m_buffer.length →
        (∀ p ∈ s'.m_presses, p.key.index ≠ i) → target'[i]? = some d) := by
  refine ⟨?_, ?_, ?_⟩
  · intro s hreach hd
    exact hreach.bufferClean hd
  · intro s elapsed target s' target' hr i hfree
    obtain ⟨hs', _⟩ := render_some_eq blendFn s elapsed target s' target' hr
    rw [hs']
    exact renderLoop_untouched s elapsed i s.m_presses s.m_buffer hfree
  · intro hblend s elapsed target s' target' hreach hd hr i d ht hi hfree
    exact render_target_untracked blendFn hblend s elapsed target s' target' hreach hd hr
      i d ht hi hfree

/-- C19, at a concrete input: the default effect after a press and a frame of 2000ms; the
evicted key is left with alpha 0, and a later frame leaves an opaque target as it is. -/
theorem render_buffer_invariant_witness :
    (⟨255, 255, 255, 0⟩ : RGBAColor).alpha = 0 ∧
      [(⟨10, 20, 30, 255⟩ : RGBAColor)][0]? = some ⟨10, 20, 30, 255⟩ :=
  ⟨(render_buffer_invariant blend).1 scenarioEvicted
      (Reachable.render 2000 [transparent] [transparent]
        (Reachable.handleKeyEvent ⟨0, 0⟩ true (Reachable.create none none none 1)) trivial
        (by decide))
      (by decide) 0 ⟨255, 255, 255, 0⟩ (by decide)
      (by intro p hp; exact absurd hp (List.not_mem_nil _)),
    (render_buffer_invariant blend).2.2 blend_of_alpha_zero scenarioEvicted 16
      [⟨10, 20, 30, 255⟩] scenarioEvicted [⟨10, 20, 30, 255⟩]
      (Reachable.render 2000 [transparent] [transparent]
        (Reachable.handleKeyEvent ⟨0, 0⟩ true (Reachable.create none none none 1)) trivial
        (by decide))
      (by decide) (by decide) 0 ⟨10, 20, 30, 255⟩ (by decide) (by decide)
      (by intro p hp; exact absurd hp (List.not_mem_nil _))⟩

end Keyleds
